import Mathlib

/-!
Verification development for the telegram-scraper repository.

Part 1 embeds the crawl orchestrator: the page loop of `launch`
(package dapr).  Part 2 embeds the content extractor: `ParseMessage`,
`processMessageSafely` and `fetchfilefromtelegram`
(package telegramhelper).

Conventions of the embedding:

* Go strings are Lean `String`s; Go `int`/`int32`/`int64` are `Int`
  (or `Nat` where the source only ever holds counts).
* Go maps are association lists kept in insertion order with
  last-write-wins values.  Go iterates maps in a nondeterministic
  order; the embedding fixes first-occurrence order, and every theorem
  below is insensitive to that choice (statements are about membership,
  per-URL values, or singleton layers).
* Fallible collaborators (TDLib client, blob sink, state store) are
  oracle functions passed in as an environment record.
* Go `panic`/`recover` is embedded by explicit branches: each statement
  of the source that can panic becomes a branch returning the result
  that the registered `defer`red recovers produce (Go runs deferred
  functions in LIFO order; a recover stops the panic and the function
  returns its current named result values).
-/

namespace TgScraper

/-- Page is one frontier entry (state.Page): a URL plus its visit status.
The status strings used by `launch` are "fetched" and "error"; a page
that has never been visited carries the seed status. -/
structure Page where
  url : String
  status : String
deriving DecidableEq, Repr

/-- Layer groups the pages discovered at one BFS depth (state.Layer). -/
structure Layer where
  depth : Nat
  pages : List Page
deriving DecidableEq, Repr

/-- VisitResult abstracts one call of crawl.Run on a page: it can panic,
return a non-nil error, or succeed with a list of outlink pages. -/
inductive VisitResult where
  | panic : VisitResult
  | fail : VisitResult
  | ok : List Page → VisitResult

/-- CrawlState is the in-memory state of the page loop of `launch`:
the layered frontier `layers` (the Go variable `list`), the seen-URL
set `seen` (the Go map `seenURLs`, kept as a list with membership by
`contains`), the outer index `i` over layers, the inner index `j` over
the current layer's pages, and a ghost trace `visited` recording, in
order, the URLs on which the visit function was invoked. -/
structure CrawlState where
  layers : List Layer
  seen : List String
  i : Nat
  j : Nat
  visited : List String
deriving DecidableEq, Repr

/-- dedupeOutlinks embeds the outlink-deduplication loop of `launch`
(lines 136-151): each outlink whose URL is already in `seenURLs` is
dropped; a survivor is recorded in `seenURLs` at once, so the second
occurrence of a URL inside the same batch is dropped as well.  Returns
the grown seen set and the surviving pages in first-occurrence order
(the Go code collects them through a map whose iteration order is
nondeterministic). -/
def dedupeOutlinks (seen : List String) (outs : List Page) :
    List String × List Page :=
  match outs with
  | [] => (seen, [])
  | ol :: rest =>
    if seen.contains ol.url then dedupeOutlinks seen rest
    else
      let r := dedupeOutlinks (ol.url :: seen) rest
      (r.1, ol :: r.2)

/-- dedupePages embeds the per-layer deduplication of `launch`
(lines 160-170): a map from URL to page is built by iterating the page
list in order, so for each URL the last page wins; the embedding emits
first-occurrence order (the Go map iteration order is
nondeterministic). -/
def dedupePages (ps : List Page) : List Page :=
  ps.foldl
    (fun acc p =>
      if acc.any (fun q => q.url = p.url) then
        acc.map (fun q => if q.url = p.url then p else q)
      else acc ++ [p])
    []

/-- mergeOutlinks embeds lines 153-177 of `launch`: if the deduplicated
outlink batch `pag` is nonempty, it is appended into the layer at index
`depth + 1` when the frontier already has such a layer (followed by the
per-layer URL deduplication), and otherwise a fresh layer of depth
`depth + 1` is appended at the end of the frontier. -/
def mergeOutlinks (layers : List Layer) (depth : Nat) (pag : List Page) :
    List Layer :=
  if pag.isEmpty then layers
  else if h : depth + 1 < layers.length then
    let existing := layers.get ⟨depth + 1, h⟩
    layers.set (depth + 1) ⟨existing.depth, dedupePages (existing.pages ++ pag)⟩
  else layers ++ [⟨depth + 1, pag⟩]

/-- step embeds one iteration of the page loop of `launch`
(lines 115-187).  Points of faithfulness to the source:

* `la := l.Pages[j]` copies the page struct, so the assignments
  `la.Status = "error"` / `la.Status = "fetched"` mutate only the
  local copy and are never written back into the frontier — therefore
  this step function leaves the examined page's entry untouched.
* A panic inside the per-page closure is recovered (lines 121-126) and
  merely logged; the recover assigns no status at all and the loop
  moves to the next page.
* Only a successful visit merges outlinks; an error or panic leaves
  the frontier unchanged.
* Pages whose stored status is "fetched" are skipped without invoking
  the visit function (line 119). -/
def step (visit : Page → VisitResult) (s : CrawlState) : CrawlState :=
  match s.layers.get? s.i with
  | none => s
  | some l =>
    match l.pages.get? s.j with
    | none => { s with i := s.i + 1, j := 0 }
    | some la =>
      if la.status = "fetched" then { s with j := s.j + 1 }
      else
        match visit la with
        | .panic => { s with j := s.j + 1, visited := s.visited ++ [la.url] }
        | .fail => { s with j := s.j + 1, visited := s.visited ++ [la.url] }
        | .ok outlinks =>
          let d := dedupeOutlinks s.seen outlinks
          { s with
            layers := mergeOutlinks s.layers l.depth d.2
            seen := d.1
            j := s.j + 1
            visited := s.visited ++ [la.url] }

/-- run iterates `step` a given number of times (fuel).  The Go loop has
no fuel; it simply runs until the outer index passes the last layer,
which a finite fuel witnesses whenever the crawl is finite. -/
def run (visit : Page → VisitResult) : Nat → CrawlState → CrawlState
  | 0, s => s
  | n + 1, s => run visit n (step visit s)

/-- finished holds when the outer loop index has passed every layer, the
termination condition of the page loop of `launch`. -/
def finished (s : CrawlState) : Bool :=
  s.layers.length ≤ s.i

/-- initState builds the loop state at entry of `launch`: the seen set
is initialised from the seed URLs only (lines 92-97 of the source; a
frontier loaded from a previous run contributes nothing to it), both
indices start at zero and the ghost trace is empty. -/
def initState (frontier : List Layer) (seeds : List String) : CrawlState :=
  ⟨frontier, seeds, 0, 0, []⟩

/-- Modelled from the spec: `SeedSetup` lives in the state package,
which is not under src/.  The spec's load-or-seed policy says a fresh
crawl starts from a single layer of depth 0 holding one unvisited page
per seed, while a restarted crawl instead loads the previously
persisted frontier (theorems about resumed runs therefore quantify
over an arbitrary initial frontier).  This definition is the fresh
half; "unvisited" stands for the spec's unvisited status. -/
def seedFrontier (seeds : List String) : List Layer :=
  [⟨0, seeds.map (fun u => ⟨u, "unvisited"⟩)⟩]

/-- pagesOf lists every page of every layer of a frontier, in order. -/
def pagesOf (ls : List Layer) : List Page :=
  ls.foldr (fun l acc => l.pages ++ acc) []

/-- frontierUrls lists every page URL of every layer, in order. -/
def frontierUrls (ls : List Layer) : List String :=
  (pagesOf ls).map Page.url

/-- layersContaining counts the layers that hold at least one page with
the given URL. -/
def layersContaining (ls : List Layer) (u : String) : Nat :=
  (ls.filter (fun l => l.pages.any (fun p => p.url = u))).length

/-- atMostOneLayer states the spec's dedup invariant: every identifier
appears in at most one layer of the frontier. -/
def atMostOneLayer (ls : List Layer) : Prop :=
  ∀ u, layersContaining ls u ≤ 1

/-- initPagesAt reads the page list of the layer the initial frontier
holds at a given index (empty when there is no such layer). -/
def initPagesAt (frontier0 : List Layer) (m : Nat) : List Page :=
  match frontier0.get? m with
  | some l => l.pages
  | none => []

/-- ResumeInv is the inductive invariant of the page loop for a run
started on `frontier0` with seen set `seeds`, under the side condition
that visit outlinks never re-emit a non-seed URL of `frontier0`:

* the seen set contains the seeds and otherwise only URLs outside the
  initial frontier;
* the frontier never shrinks, every layer's depth equals its index,
  and every layer consists of its initial pages — bit-for-bit, statuses
  included — followed by newly discovered pages whose URLs are seen,
  non-seed, and outside the initial frontier, with no duplicates;
* every visited URL belongs to a non-fetched initial page or lies
  outside the initial frontier;
* every page position the loop has passed holds a page that was
  fetched or whose URL was visited. -/
structure ResumeInv (seeds : List String) (frontier0 : List Layer)
    (s : CrawlState) : Prop where
  seen_seeds : ∀ u ∈ seeds, u ∈ s.seen
  seen_fresh : ∀ u ∈ s.seen, u ∈ seeds ∨ u ∉ frontierUrls frontier0
  len_ge : frontier0.length ≤ s.layers.length
  layer_ext : ∀ (m : Nat) (l : Layer), s.layers.get? m = some l →
    l.depth = m ∧ ∃ extra : List Page,
      l.pages = initPagesAt frontier0 m ++ extra ∧
      (∀ q ∈ extra,
        q.url ∈ s.seen ∧ q.url ∉ seeds ∧ q.url ∉ frontierUrls frontier0) ∧
      (extra.map Page.url).Nodup
  visited_src : ∀ u ∈ s.visited,
    (∃ p, p ∈ pagesOf frontier0 ∧ p.url = u ∧ p.status ≠ "fetched") ∨
      u ∉ frontierUrls frontier0
  proc : ∀ (m : Nat) (l : Layer), s.layers.get? m = some l →
    ∀ (k : Nat) (p : Page), l.pages.get? k = some p →
      (m < s.i ∨ (m = s.i ∧ k < s.j)) →
      p.status = "fetched" ∨ p.url ∈ s.visited

/-! ## Content extractor (telegramhelper.ParseMessage and helpers) -/

/-- yearOfUnix computes the calendar year (proleptic Gregorian, UTC) of
an epoch-seconds value, embedding Go's
`time.Unix(int64(message.Date), 0).Year()`.  The computation follows
the standard civil-from-days conversion; `Int.ediv` is used so that
days are floored, matching Go for all timestamps. -/
def yearOfUnix (secs : Int) : Int :=
  let z := Int.ediv secs 86400 + 719468
  let era := Int.ediv z 146097
  let doe := z - era * 146097
  let yoe :=
    Int.ediv (doe - Int.ediv doe 1460 + Int.ediv doe 36524 - Int.ediv doe 146096) 365
  let y := yoe + era * 400
  let doy := doe - (365 * yoe + Int.ediv yoe 4 - Int.ediv yoe 100)
  let mp := Int.ediv (5 * doy + 2) 153
  let m := if mp < 10 then mp + 3 else mp - 9
  if m ≤ 2 then y + 1 else y

/-- Comment is one fetched reply.  Modelled from the spec: the Comment
record (model package, not under src/) is a minimal author/text/time
record; ParseMessage only stores the list and uses its length. -/
structure Comment where
  author : String
  text : String
  time : Int
deriving DecidableEq, Repr

/-- ReplyInfo embeds client.MessageReplyInfo as used by the source:
only the reply count is read. -/
structure ReplyInfo where
  replyCount : Int
deriving DecidableEq, Repr

/-- ReactionType embeds the TDLib reaction-type union.  `emoji` is
client.ReactionTypeEmoji; `custom` stands for the non-emoji kinds
(custom-emoji, paid), which the type assertion in the source
rejects. -/
inductive ReactionType where
  | emoji (emoji : String)
  | custom (customEmojiId : Int)
deriving DecidableEq, Repr

/-- ReactionEntry embeds one client.MessageReaction: its type (an
interface value, hence possibly nil) and total count. -/
structure ReactionEntry where
  rtype : Option ReactionType
  totalCount : Int
deriving DecidableEq, Repr

/-- InteractionInfo embeds client.MessageInteractionInfo: the optional
reply info and the optional reaction list. -/
structure InteractionInfo where
  replyInfo : Option ReplyInfo
  reactions : Option (List ReactionEntry)
deriving DecidableEq, Repr

/-- VideoInfo embeds the part of client.MessageVideo read by
processMessageSafely: the optional thumbnail's remote id and the video
body's remote id. -/
structure VideoInfo where
  thumbnail : Option String
  videoId : String
deriving DecidableEq, Repr

/-- MsgContent embeds the TDLib message-content union, carrying exactly
the fields the source reads.  `Option` marks pointers the source
dereferences without a nil check (so `none` makes the source panic),
except for video, whose nil checks live in processMessageSafely. -/
inductive MsgContent where
  | text (body : String)
  | video (video : Option VideoInfo) (caption : String)
  | photo (sizes : List String) (caption : String)
  | animation (thumbnail : Option String) (caption : String)
  | animatedEmoji (emoji : String)
  | poll (question : String)
  | giveaway (prizeType : String)
  | paidMedia (caption : String)
  | sticker (stickerId : String)
  | giveawayWinners
  | giveawayCompleted
  | videoNote (thumbnail : Option String) (videoId : String)
  | document (fileName : String) (thumbnail : Option String) (documentId : String)
  | unknown (typeName : String)
deriving DecidableEq, Repr

/-- contentTypeName embeds client.MessageContent.MessageContentType(). -/
def contentTypeName : MsgContent → String
  | .text _ => "messageText"
  | .video _ _ => "messageVideo"
  | .photo _ _ => "messagePhoto"
  | .animation _ _ => "messageAnimation"
  | .animatedEmoji _ => "messageAnimatedEmoji"
  | .poll _ => "messagePoll"
  | .giveaway _ => "messageGiveaway"
  | .paidMedia _ => "messagePaidMedia"
  | .sticker _ => "messageSticker"
  | .giveawayWinners => "messageGiveawayWinners"
  | .giveawayCompleted => "messageGiveawayCompleted"
  | .videoNote _ _ => "messageVideoNote"
  | .document _ _ _ => "messageDocument"
  | .unknown n => n

/-- Message embeds the fields of client.Message that ParseMessage
reads. -/
structure Message where
  date : Int
  editDate : Int
  chatId : Int
  content : MsgContent
  interactionInfo : Option InteractionInfo
deriving DecidableEq, Repr

/-- MessageLink embeds client.MessageLink: the permalink string. -/
structure MessageLink where
  link : String
deriving DecidableEq, Repr

/-- Chat embeds the fields of client.Chat that ParseMessage reads. -/
structure Chat where
  id : Int
  title : String
deriving DecidableEq, Repr

/-- SupergroupFullInfo embeds the single field the source reads. -/
structure SupergroupFullInfo where
  memberCount : Int
deriving DecidableEq, Repr

/-- EngagementData mirrors model.EngagementData as assembled by
ParseMessage (the model package is not under src/; the field list is
read off the composite literal in the source). -/
structure EngagementData where
  followerCount : Int
  followingCount : Int
  likeCount : Int
  postCount : Int
  viewsCount : Int
  commentCount : Int
  shareCount : Int
deriving DecidableEq, Repr

/-- ChannelData mirrors model.ChannelData as assembled by
ParseMessage. -/
structure ChannelData where
  channelId : Int
  channelName : String
  channelProfileImage : String
  channelEngagementData : EngagementData
  channelUrlExternal : String
  channelUrl : String
deriving DecidableEq, Repr

/-- Post mirrors model.Post as assembled by ParseMessage (the canonical
record).  Time fields hold epoch seconds. -/
structure Post where
  postLink : String
  channelId : Int
  postUid : String
  url : String
  publishedAt : Int
  createdAt : Int
  languageCode : String
  engagement : Int
  viewCount : Int
  likeCount : Int
  shareCount : Int
  commentCount : Int
  channelName : String
  description : String
  isAd : Bool
  postType : List String
  transcriptText : String
  imageText : String
  platformName : String
  likesCount : Int
  sharesCount : Int
  commentsCount : Int
  viewsCount : Int
  searchableText : String
  allText : String
  thumbUrl : String
  mediaUrl : String
  channelData : ChannelData
  comments : List Comment
  reactions : List (String × Int)
deriving DecidableEq, Repr

/-- emptyPost is the Go zero value `model.Post{}` returned on the
filtered and recovered paths. -/
def emptyPost : Post where
  postLink := ""
  channelId := 0
  postUid := ""
  url := ""
  publishedAt := 0
  createdAt := 0
  languageCode := ""
  engagement := 0
  viewCount := 0
  likeCount := 0
  shareCount := 0
  commentCount := 0
  channelName := ""
  description := ""
  isAd := false
  postType := []
  transcriptText := ""
  imageText := ""
  platformName := ""
  likesCount := 0
  sharesCount := 0
  commentsCount := 0
  viewsCount := 0
  searchableText := ""
  allText := ""
  thumbUrl := ""
  mediaUrl := ""
  channelData := ⟨0, "", "", ⟨0, 0, 0, 0, 0, 0, 0⟩, "", ""⟩
  comments := []
  reactions := []

/-- MediaEvent is a ghost trace entry recording the externally visible
actions of extraction: a platform file fetch by remote id, a blob-sink
upload of a local path, and the handoff of the record to the store. -/
inductive MediaEvent where
  | fetch (id : String)
  | upload (path : String)
  | store
deriving DecidableEq, Repr

/-- ExtractEnv packs the collaborator oracles of ParseMessage: the result
of fetchfilefromtelegram per remote id (a total function — see the
theorem for claim C10), the blob-sink error per uploaded path
(sm.UploadBlobFileAndDelete), the result of GetMessageComments, the
values of GetViewCount and GetMessageShareCount (whose error the source
discards), and the result of sm.StoreData (logged and discarded by the
source, hence never read by the embedding). -/
structure ExtractEnv where
  fetchFile : String → String
  uploadErr : String → Option String
  commentsResult : List Comment × Option String
  viewCount : Int
  shareCount : Int
  storeErr : Option String

/-- fetchUpload embeds the recurring two-liner of the content switch:
`path := fetchfilefromtelegram(tdlibClient, id)` followed by
`err = sm.UploadBlobFileAndDelete(crawlid, channelName, mlr.Link, path)`.
It returns the resulting value of `err` and the emitted events. -/
def fetchUpload (env : ExtractEnv) (id : String) :
    Option String × List MediaEvent :=
  let path := env.fetchFile id
  (env.uploadErr path, [.fetch id, .upload path])

/-- processMessageSafely embeds the source function of the same name: it
validates the video message structure and returns
(thumbnailPath, videoPath, description, err), with the remote ids taken
from the thumbnail and the video body. -/
def processMessageSafely (video : Option VideoInfo) (caption : String) :
    String × String × String × Option String :=
  match video with
  | none => ("", "", "", some "invalid or corrupt message structure")
  | some v =>
    match v.thumbnail with
    | none => ("", "", "", some "invalid or corrupt message structure")
    | some t => (t, v.videoId, caption, none)

/-- SwitchOut is the result of the content-kind type switch of
ParseMessage: the description, thumbnail and media remote ids it
assigns, the value the Go variable `err` holds after the switch, and
the fetch/upload events emitted. -/
structure SwitchOut where
  description : String
  thumbnailPath : String
  videoPath : String
  errVar : Option String
  events : List MediaEvent
deriving Repr

/-- contentSwitch embeds the type switch of ParseMessage
(source lines 362-444).  `none` means the switch panicked (a nil
thumbnail dereference or `Sizes[0]` on an empty photo-size slice).
Faithfulness notes:

* video: errors from processMessageSafely are discarded (`_`), and the
  fetch/upload pair runs on the (then empty) thumbnail and video ids;
  the second fetched item is the video body.
* videoNote and document: the source assigns `videoPath` from the media
  body but then fetches `thumbnailPath` a second time
  (lines 419 and 435), so the body is never downloaded or uploaded.
* `errIn` is the value the Go `err` variable holds on entry; cases that
  perform no upload leave it untouched. -/
def contentSwitch (env : ExtractEnv) (content : MsgContent)
    (errIn : Option String) : Option SwitchOut :=
  match content with
  | .text body => some ⟨body, "", "", errIn, []⟩
  | .video v caption =>
    match processMessageSafely v caption with
    | (t, vid, desc, _) =>
      let f1 := fetchUpload env t
      let f2 := fetchUpload env vid
      some ⟨desc, t, vid, f2.1, f1.2 ++ f2.2⟩
  | .photo sizes caption =>
    match sizes with
    | [] => none
    | s :: _ =>
      let f := fetchUpload env s
      some ⟨caption, s, "", f.1, f.2⟩
  | .animation thumb caption =>
    match thumb with
    | none => none
    | some t =>
      let f := fetchUpload env t
      some ⟨caption, t, "", f.1, f.2⟩
  | .animatedEmoji e => some ⟨e, "", "", errIn, []⟩
  | .poll q => some ⟨q, "", "", errIn, []⟩
  | .giveaway p => some ⟨p, "", "", errIn, []⟩
  | .paidMedia c => some ⟨c, "", "", errIn, []⟩
  | .sticker sid =>
    let f := fetchUpload env sid
    some ⟨"", sid, "", f.1, f.2⟩
  | .giveawayWinners => some ⟨"", "", "", errIn, []⟩
  | .giveawayCompleted => some ⟨"", "", "", errIn, []⟩
  | .videoNote thumb vid =>
    match thumb with
    | none => none
    | some t =>
      let f1 := fetchUpload env t
      let f2 := fetchUpload env t
      some ⟨"", t, vid, f2.1, f1.2 ++ f2.2⟩
  | .document fileName thumb did =>
    match thumb with
    | none => none
    | some t =>
      let f1 := fetchUpload env t
      let f2 := fetchUpload env t
      some ⟨fileName, t, did, f2.1, f1.2 ++ f2.2⟩
  | .unknown _ => some ⟨"", "", "", errIn, []⟩

/-- setReaction embeds one Go map assignment
`reactions[emoji] = count`: last write wins; the embedding keeps
first-occurrence key order. -/
def setReaction (m : List (String × Int)) (k : String) (v : Int) :
    List (String × Int) :=
  if m.any (fun e => e.1 = k) then
    m.map (fun e => if e.1 = k then (k, v) else e)
  else m ++ [(k, v)]

/-- reactionsOf embeds the reaction loop of ParseMessage
(lines 453-459): entries with a nil type or a non-emoji type are
skipped; for emoji entries the map value is ASSIGNED (not summed), so
for a repeated emoji the last entry wins. -/
def reactionsOf (entries : List ReactionEntry) : List (String × Int) :=
  entries.foldl
    (fun acc r =>
      match r.rtype with
      | some (.emoji e) => setReaction acc e r.totalCount
      | _ => acc)
    []

/-- lookupReaction reads the reaction map of a record. -/
def lookupReaction (m : List (String × Int)) (k : String) : Option Int :=
  match m.find? (fun e => e.1 = k) with
  | some e => some e.2
  | none => none

/-- emojiKeys lists the emoji of every well-formed emoji reaction
entry, in order (entries with a nil or non-emoji type contribute
nothing). -/
def emojiKeys (entries : List ReactionEntry) : List String :=
  entries.filterMap
    (fun r =>
      match r.rtype with
      | some (.emoji e) => some e
      | _ => none)

/-- sumReactionCounts follows the spec's words — "sum per-emoji
reaction counts into a mapping" — summing the total counts of every
entry bearing the given emoji.  It is the specification-side
definition that claim C8 compares against the source-side
reactionsOf. -/
def sumReactionCounts (entries : List ReactionEntry) (e : String) : Int :=
  ((entries.filter (fun r => r.rtype = some (.emoji e))).map
    ReactionEntry.totalCount).sum

/-- splitChars splits a character list at every occurrence of the
separator, keeping empty segments; `cur` accumulates the current
segment in reverse. -/
def splitChars (sep : Char) : List Char → List Char → List String
  | [], cur => [String.mk cur.reverse]
  | c :: rest, cur =>
    if c = sep then String.mk cur.reverse :: splitChars sep rest []
    else splitChars sep rest (c :: cur)

/-- splitOnSlash embeds Go's `strings.Split(link, "/")`: the segments
of the string between occurrences of "/", empty segments kept; on the
empty string it returns [""], so the result is never empty. -/
def splitOnSlash (s : String) : List String :=
  splitChars '/' s.toList []

/-- messageNumberOf embeds lines 339-345: the message number is the
last "/"-separated segment of the permalink; the guard returns none —
making extraction yield an empty result — when the split is empty
(which strings.Split in fact never produces). -/
def messageNumberOf (link : String) : Option String :=
  let linkParts := splitOnSlash link
  if linkParts.length > 0 then linkParts.getLast? else none

/-- contentPanics decides whether the content switch panics on this
content value (nil thumbnail dereference, or Sizes[0] of an empty
slice). -/
def contentPanics : MsgContent → Bool
  | .photo sizes _ => sizes.isEmpty
  | .animation none _ => true
  | .videoNote none _ => true
  | .document _ none _ => true
  | _ => false

/-- commentsDeferOf decides whether the comment-fetch recover
(lines 349-353) gets registered: the message has interaction info with
reply info. -/
def commentsDeferOf (message : Message) : Bool :=
  match message.interactionInfo with
  | some ii => ii.replyInfo.isSome
  | none => false

/-- reactionsDeferOf decides whether the reaction-loop recover
(lines 448-452) gets registered: the message has interaction info with
a non-empty reaction list. -/
def reactionsDeferOf (message : Message) : Bool :=
  match message.interactionInfo with
  | some ii =>
    match ii.reactions with
    | some rs => decide (rs.length > 0)
    | none => false
  | none => false

/-- errCommentsOf is the value the Go variable `err` holds right after
the comment block (lines 347-360): the GetMessageComments error when a
fetch was attempted (ReplyCount > 0), nil otherwise. -/
def errCommentsOf (env : ExtractEnv) (message : Message) : Option String :=
  match message.interactionInfo with
  | some ii =>
    match ii.replyInfo with
    | some ri => if ri.replyCount > 0 then env.commentsResult.2 else none
    | none => none
  | none => none

/-- commentsOf is the comment list produced by the comment block. -/
def commentsOf (env : ExtractEnv) (message : Message) : List Comment :=
  match message.interactionInfo with
  | some ii =>
    match ii.replyInfo with
    | some ri => if ri.replyCount > 0 then env.commentsResult.1 else []
    | none => []
  | none => []

/-- ParseMessage embeds the source function of the same name.  The
result is (post, err, events): the named return values plus the ghost
event trace.  Faithfulness notes on panic/recover:

* The outer deferred recover (lines 326-332) yields
  err = "failed to parse message" with a zero-value post.
* If the message has interaction info with reply info, a second recover
  is registered (lines 349-353) BEFORE the content switch; if the
  reaction list is non-empty, a third one is registered (lines 448-452)
  before the record is assembled.  Go runs deferred functions in LIFO
  order and a recover ends the panic, so a panic in the content switch
  is absorbed by the comment recover when present, and a panic while
  assembling the record (nil supergroupInfo) is absorbed by the
  reaction recover when present, else the comment recover — in those
  cases the function returns the zero post together with whatever value
  the variable `err` last held (a swallowed comment-fetch or upload
  error, possibly nil), NOT "failed to parse message".
* Every non-panic path ends in an explicit `return ..., nil`. -/
def ParseMessage (env : ExtractEnv) (crawlid : String) (message : Message)
    (mlr : MessageLink) (chat : Chat)
    (supergroupInfo : Option SupergroupFullInfo)
    (postcount viewcount : Int) (channelName : String) :
    Post × Option String × List MediaEvent :=
  if yearOfUnix message.date < 2018 then (emptyPost, none, [])
  else
    match messageNumberOf mlr.link with
    | none => (emptyPost, none, [])
    | some messageNumber =>
      match contentSwitch env message.content (errCommentsOf env message) with
      | none =>
        if commentsDeferOf message then (emptyPost, errCommentsOf env message, [])
        else (emptyPost, some "failed to parse message", [])
      | some so =>
        let reactions :=
          match message.interactionInfo with
          | some ii =>
            match ii.reactions with
            | some rs => if rs.length > 0 then reactionsOf rs else []
            | none => []
          | none => []
        match supergroupInfo with
        | none =>
          if commentsDeferOf message || reactionsDeferOf message then
            (emptyPost, so.errVar, so.events)
          else (emptyPost, some "failed to parse message", so.events)
        | some sgi =>
          let post : Post :=
            { postLink := mlr.link
              channelId := message.chatId
              postUid := messageNumber ++ "-" ++ channelName
              url := mlr.link
              publishedAt := message.date
              createdAt := message.editDate
              languageCode := "RU"
              engagement := env.viewCount
              viewCount := env.viewCount
              likeCount := 0
              shareCount := env.shareCount
              commentCount := ((commentsOf env message).length : Int)
              channelName := chat.title
              description := so.description
              isAd := false
              postType := [contentTypeName message.content]
              transcriptText := ""
              imageText := ""
              platformName := "Telegram"
              likesCount := 0
              sharesCount := env.shareCount
              commentsCount := ((commentsOf env message).length : Int)
              viewsCount := env.viewCount
              searchableText := ""
              allText := ""
              thumbUrl := so.thumbnailPath
              mediaUrl := so.videoPath
              channelData :=
                { channelId := message.chatId
                  channelName := chat.title
                  channelProfileImage := ""
                  channelEngagementData :=
                    { followerCount := sgi.memberCount
                      followingCount := 0
                      likeCount := 0
                      postCount := postcount
                      viewsCount := viewcount
                      commentCount := 0
                      shareCount := 0 }
                  channelUrlExternal := "https://t.me/c/" ++ channelName
                  channelUrl := "" }
              comments := commentsOf env message
              reactions := reactions }
          (post, none, so.events ++ [.store])

/-- errSwitchOf is the value the Go variable `err` holds right after
the content switch on a non-panicking path: the last upload error for
media kinds, the comment-block value otherwise. -/
def errSwitchOf (env : ExtractEnv) (message : Message) : Option String :=
  match contentSwitch env message.content (errCommentsOf env message) with
  | some so => so.errVar
  | none => none

/-- expectedErr characterises the error component of ParseMessage: nil
on every non-panic path (filtered, unparseable or fully extracted);
for a panic in the content switch, the comment recover (when
registered) returns the swallowed comment error, else the function
boundary yields "failed to parse message"; for a panic while the
record is assembled (nil supergroup info), the reaction or comment
recover (when registered) returns the last swallowed sub-error, else
the boundary yields "failed to parse message". -/
def expectedErr (env : ExtractEnv) (message : Message)
    (sgi : Option SupergroupFullInfo) : Option String :=
  if yearOfUnix message.date < 2018 then none
  else if contentPanics message.content then
    if commentsDeferOf message then errCommentsOf env message
    else some "failed to parse message"
  else if sgi.isNone then
    if commentsDeferOf message || reactionsDeferOf message then
      errSwitchOf env message
    else some "failed to parse message"
  else none

/-- RemoteFile embeds the part of the GetRemoteFile response the source
reads (the file id used for the download request). -/
structure RemoteFile where
  id : Int
deriving DecidableEq, Repr

/-- LocalFile embeds the part of the DownloadFile response the source
reads (the downloaded file's local path). -/
structure LocalFile where
  localPath : String
deriving DecidableEq, Repr

/-- TdEnv packs the two TDLib client calls made by
fetchfilefromtelegram, as oracles. -/
structure TdEnv where
  getRemoteFile : String → Except String RemoteFile
  downloadFile : Int → Except String LocalFile

/-- fetchfilefromtelegram embeds the source function of the same name
(lines 532-569): every failure path — remote-file lookup error,
download error, empty downloaded path — returns the empty string
instead of an error; the function's own deferred recover also returns
the zero value, so no failure ever reaches the caller. -/
def fetchfilefromtelegram (env : TdEnv) (downloadid : String) : String :=
  match env.getRemoteFile downloadid with
  | .error _ => ""
  | .ok f =>
    match env.downloadFile f.id with
    | .error _ => ""
    | .ok d => if d.localPath = "" then "" else d.localPath

/-! ## Concrete scenario inputs used by the claim theorems -/

/-- c1PanicVisit is a visit implementation that panics on exactly the
page "a" and succeeds with no outlinks elsewhere. -/
def c1PanicVisit : Page → VisitResult :=
  fun p => if p.url = "a" then .panic else .ok []

/-- c2ResumeVisit succeeds on "a" rediscovering the URL "b" as an
outlink, and succeeds with no outlinks elsewhere. -/
def c2ResumeVisit : Page → VisitResult :=
  fun p => if p.url = "a" then .ok [⟨"b", "unvisited"⟩] else .ok []

/-- c2ResumeStart is a resumed run: the loaded frontier has the
unvisited seed "a" at depth 0 and the already fetched page "b" at
depth 1; the seen set is initialised from the seeds alone (src lines
92-97), so it does not contain "b". -/
def c2ResumeStart : CrawlState :=
  initState [⟨0, [⟨"a", "unvisited"⟩]⟩, ⟨1, [⟨"b", "fetched"⟩]⟩] ["a"]

/-- c3ResumeStart is a resumed run whose loaded frontier holds "b" at
depth 2; visiting "a" rediscovers "b". -/
def c3ResumeStart : CrawlState :=
  initState
    [⟨0, [⟨"a", "unvisited"⟩]⟩, ⟨1, [⟨"c", "fetched"⟩]⟩, ⟨2, [⟨"b", "fetched"⟩]⟩]
    ["a"]

/-- c3ScenarioVisit returns the outlink batch ["b", "a", "b"] when
visiting "a", and nothing elsewhere (the spec's unseeded outlink dedup
scenario). -/
def c3ScenarioVisit : Page → VisitResult :=
  fun p =>
    if p.url = "a" then
      .ok [⟨"b", "unvisited"⟩, ⟨"a", "unvisited"⟩, ⟨"b", "unvisited"⟩]
    else .ok []

/-- c2WitnessFrontier is a loaded two-layer frontier: seed "a"
unvisited at depth 0 and "b" already fetched at depth 1. -/
def c2WitnessFrontier : List Layer :=
  [⟨0, [⟨"a", "unvisited"⟩]⟩, ⟨1, [⟨"b", "fetched"⟩]⟩]

/-- c2WitnessVisit discovers only the fresh URL "c" when visiting "a"
and nothing elsewhere, so it never re-emits a frontier URL. -/
def c2WitnessVisit : Page → VisitResult :=
  fun p => if p.url = "a" then .ok [⟨"c", "unvisited"⟩] else .ok []

/-- c4Env is an extractor environment whose file fetch returns a
distinct local path per remote id and whose uploads succeed. -/
def c4Env : ExtractEnv :=
  ⟨fun id => "local-" ++ id, fun _ => none, ([], none), 5, 2, none⟩

/-- c4Msg is a document message with thumbnail remote id "t" and
document body remote id "d". -/
def c4Msg : Message :=
  ⟨1600000000, 0, 7, .document "doc.pdf" (some "t") "d", none⟩

/-- c5Env is an extractor environment whose file fetch places every
remote id at the local path "/tmp/file1" and whose uploads succeed. -/
def c5Env : ExtractEnv :=
  ⟨fun _ => "/tmp/file1", fun _ => none, ([], none), 5, 2, none⟩

/-- c5MsgA is a photo message whose single size has remote id
"remoteA". -/
def c5MsgA : Message := ⟨1600000000, 0, 7, .photo ["remoteA"] "cap", none⟩

/-- c5MsgB is the same photo message except the remote id is
"remoteB". -/
def c5MsgB : Message := ⟨1600000000, 0, 7, .photo ["remoteB"] "cap", none⟩

/-- c9Env is an extractor environment whose blob-sink uploads fail with
the error "upload failed". -/
def c9Env : ExtractEnv :=
  ⟨fun id => "local-" ++ id, fun _ => some "upload failed", ([], none), 5, 2, none⟩

/-- c9Msg is a video message carrying a non-empty reaction list and no
reply info, so only the reaction recover gets registered. -/
def c9Msg : Message :=
  ⟨1600000000, 0, 7, .video (some ⟨some "t", "v"⟩) "cap",
    some ⟨none, some [⟨some (.emoji "x"), 1⟩]⟩⟩

/-! ## Supporting lemmas -/

/-- dedupeOutlinks drops an already seen head outlink. -/
theorem dedupeOutlinks_cons_skip (seen : List String) (ol : Page)
    (rest : List Page) (hc : seen.contains ol.url = true) :
    dedupeOutlinks seen (ol :: rest) = dedupeOutlinks seen rest := by
  conv_lhs => unfold dedupeOutlinks
  rw [if_pos hc]

/-- dedupeOutlinks keeps an unseen head outlink, marking it seen for
the remainder of the batch. -/
theorem dedupeOutlinks_cons_keep (seen : List String) (ol : Page)
    (rest : List Page) (hc : ¬ seen.contains ol.url = true) :
    dedupeOutlinks seen (ol :: rest)
      = ((dedupeOutlinks (ol.url :: seen) rest).1,
         ol :: (dedupeOutlinks (ol.url :: seen) rest).2) := by
  conv_lhs => unfold dedupeOutlinks
  rw [if_neg hc]

/-- dedupeOutlinks only grows the seen set. -/
theorem dedupeOutlinks_seen_mono (outs : List Page) :
    ∀ (seen : List String), ∀ u ∈ seen, u ∈ (dedupeOutlinks seen outs).1 := by
  induction outs with
  | nil => intro seen u hu; exact hu
  | cons ol rest ih =>
    intro seen u hu
    by_cases hc : seen.contains ol.url = true
    · rw [dedupeOutlinks_cons_skip seen ol rest hc]
      exact ih seen u hu
    · rw [dedupeOutlinks_cons_keep seen ol rest hc]
      exact ih _ u (List.mem_cons_of_mem _ hu)

/-- dedupeOutlinks grows the seen set by at most the URLs of the
surviving batch. -/
theorem dedupeOutlinks_mem_seen (outs : List Page) :
    ∀ (seen : List String), ∀ u ∈ (dedupeOutlinks seen outs).1,
      u ∈ seen ∨ u ∈ (dedupeOutlinks seen outs).2.map Page.url := by
  induction outs with
  | nil => intro seen u hu; exact Or.inl hu
  | cons ol rest ih =>
    intro seen u hu
    by_cases hc : seen.contains ol.url = true
    · rw [dedupeOutlinks_cons_skip seen ol rest hc] at hu ⊢
      exact ih seen u hu
    · rw [dedupeOutlinks_cons_keep seen ol rest hc] at hu ⊢
      rcases ih _ u hu with h | h
      · rcases List.mem_cons.mp h with h0 | h0
        · subst h0
          exact Or.inr (List.mem_map.mpr ⟨ol, List.mem_cons_self _ _, rfl⟩)
        · exact Or.inl h0
      · exact Or.inr (by rw [List.map_cons]; exact List.mem_cons_of_mem _ h)

/-- Every surviving outlink comes from the batch and was unseen on
entry. -/
theorem dedupeOutlinks_pag (outs : List Page) :
    ∀ (seen : List String), ∀ q ∈ (dedupeOutlinks seen outs).2,
      q ∈ outs ∧ q.url ∉ seen := by
  induction outs with
  | nil => intro seen q hq; exact absurd hq (List.not_mem_nil q)
  | cons ol rest ih =>
    intro seen q hq
    by_cases hc : seen.contains ol.url = true
    · rw [dedupeOutlinks_cons_skip seen ol rest hc] at hq
      obtain ⟨h1, h2⟩ := ih seen q hq
      exact ⟨List.mem_cons_of_mem _ h1, h2⟩
    · rw [dedupeOutlinks_cons_keep seen ol rest hc] at hq
      rcases List.mem_cons.mp hq with h0 | h0
      · subst h0
        refine ⟨List.mem_cons_self _ _, fun hm => hc ?_⟩
        exact List.elem_iff.mpr hm
      · obtain ⟨h1, h2⟩ := ih _ q h0
        exact ⟨List.mem_cons_of_mem _ h1,
          fun hm => h2 (List.mem_cons_of_mem _ hm)⟩

/-- Every surviving outlink's URL ends up in the grown seen set. -/
theorem dedupeOutlinks_pag_seen (outs : List Page) :
    ∀ (seen : List String), ∀ q ∈ (dedupeOutlinks seen outs).2,
      q.url ∈ (dedupeOutlinks seen outs).1 := by
  induction outs with
  | nil => intro seen q hq; exact absurd hq (List.not_mem_nil q)
  | cons ol rest ih =>
    intro seen q hq
    by_cases hc : seen.contains ol.url = true
    · rw [dedupeOutlinks_cons_skip seen ol rest hc] at hq ⊢
      exact ih seen q hq
    · rw [dedupeOutlinks_cons_keep seen ol rest hc] at hq ⊢
      rcases List.mem_cons.mp hq with h0 | h0
      · subst h0
        exact dedupeOutlinks_seen_mono rest _ q.url (List.mem_cons_self _ _)
      · exact ih _ q h0

/-- The surviving batch has pairwise distinct URLs. -/
theorem dedupeOutlinks_pag_nodup (outs : List Page) :
    ∀ (seen : List String),
      ((dedupeOutlinks seen outs).2.map Page.url).Nodup := by
  induction outs with
  | nil => intro seen; simp [dedupeOutlinks]
  | cons ol rest ih =>
    intro seen
    by_cases hc : seen.contains ol.url = true
    · rw [dedupeOutlinks_cons_skip seen ol rest hc]
      exact ih seen
    · rw [dedupeOutlinks_cons_keep seen ol rest hc]
      rw [List.map_cons, List.nodup_cons]
      refine ⟨fun hm => ?_, ih _⟩
      obtain ⟨q, hq, hqu⟩ := List.mem_map.mp hm
      obtain ⟨-, h2⟩ := dedupeOutlinks_pag rest _ q hq
      exact h2 (by rw [hqu]; exact List.mem_cons_self _ _)


/-- pagesOf distributes over cons. -/
theorem pagesOf_cons (l : Layer) (ls : List Layer) :
    pagesOf (l :: ls) = l.pages ++ pagesOf ls := rfl

/-- frontierUrls distributes over cons. -/
theorem frontierUrls_cons (l : Layer) (ls : List Layer) :
    frontierUrls (l :: ls) = l.pages.map Page.url ++ frontierUrls ls := by
  simp [frontierUrls, pagesOf_cons]

/-- frontierUrls distributes over append. -/
theorem frontierUrls_append (l1 l2 : List Layer) :
    frontierUrls (l1 ++ l2) = frontierUrls l1 ++ frontierUrls l2 := by
  induction l1 with
  | nil => rfl
  | cons l ls ih =>
    rw [List.cons_append, frontierUrls_cons, frontierUrls_cons, ih,
      List.append_assoc]

/-- URL membership in a page list, phrased through `any`. -/
theorem mem_map_url_iff_any (l : List Page) (u : String) :
    u ∈ l.map Page.url ↔ l.any (fun p => p.url = u) = true := by
  rw [List.any_eq_true]
  constructor
  · intro h
    obtain ⟨p, hp, hpu⟩ := List.mem_map.mp h
    exact ⟨p, hp, by simpa using hpu⟩
  · intro ⟨p, hp, hpu⟩
    exact List.mem_map.mpr ⟨p, hp, by simpa using hpu⟩

/-- layersContaining of the empty frontier. -/
theorem layersContaining_nil (u : String) : layersContaining [] u = 0 := rfl

/-- layersContaining distributes over cons. -/
theorem layersContaining_cons (l : Layer) (ls : List Layer) (u : String) :
    layersContaining (l :: ls) u
      = (if l.pages.any (fun p => p.url = u) then 1 else 0)
        + layersContaining ls u := by
  by_cases h : l.pages.any (fun p => p.url = u) = true
  · rw [if_pos h]
    unfold layersContaining
    rw [List.filter_cons, if_pos h, List.length_cons]
    omega
  · rw [if_neg h]
    unfold layersContaining
    rw [List.filter_cons, if_neg h]
    omega

/-- layersContaining distributes over append. -/
theorem layersContaining_append (l1 l2 : List Layer) (u : String) :
    layersContaining (l1 ++ l2) u
      = layersContaining l1 u + layersContaining l2 u := by
  unfold layersContaining
  rw [List.filter_append, List.length_append]

/-- A URL is in no layer exactly when its layer count is zero. -/
theorem layersContaining_eq_zero_iff (ls : List Layer) (u : String) :
    layersContaining ls u = 0 ↔ u ∉ frontierUrls ls := by
  induction ls with
  | nil =>
    constructor
    · intro _ hm
      exact absurd hm (List.not_mem_nil u)
    · intro _
      rfl
  | cons l ls ih =>
    rw [layersContaining_cons, frontierUrls_cons]
    constructor
    · intro h hm
      rcases List.mem_append.mp hm with hm | hm
      · have ha : l.pages.any (fun p => p.url = u) = true :=
          (mem_map_url_iff_any l.pages u).mp hm
        rw [if_pos ha] at h
        omega
      · have h2 : layersContaining ls u = 0 := by omega
        exact (ih.mp h2) hm
    · intro h
      have ha : l.pages.any (fun p => p.url = u) = false := by
        rw [List.any_eq_false]
        intro p hp hpu
        exact h (List.mem_append_left _
          (List.mem_map.mpr ⟨p, hp, by simpa using hpu⟩))
      rw [ha]
      have h2 : layersContaining ls u = 0 :=
        ih.mpr (fun hm => h (List.mem_append_right _ hm))
      simp [h2]

/-- Replacing, in a page list, every page of a given URL by another
page of that same URL does not change which URLs occur. -/
theorem map_replace_any (acc : List Page) (p : Page) (u : String) :
    (acc.map (fun q => if q.url = p.url then p else q)).any
        (fun x => x.url = u)
      = acc.any (fun x => x.url = u) := by
  induction acc with
  | nil => rfl
  | cons q acc ih =>
    rw [List.map_cons, List.any_cons, List.any_cons, ih]
    congr 1
    by_cases h : q.url = p.url
    · rw [if_pos h]
      simp [h]
    · rw [if_neg h]

/-- The fold of dedupePages preserves, over any accumulator, which URLs
occur. -/
theorem dedupePages_go_any (ps : List Page) :
    ∀ (acc : List Page) (u : String),
      (ps.foldl
        (fun acc p =>
          if acc.any (fun q => q.url = p.url) then
            acc.map (fun q => if q.url = p.url then p else q)
          else acc ++ [p]) acc).any (fun x => x.url = u)
      = (acc.any (fun x => x.url = u) || ps.any (fun x => x.url = u)) := by
  induction ps with
  | nil =>
    intro acc u
    simp
  | cons p ps ih =>
    intro acc u
    rw [List.foldl_cons]
    by_cases h : acc.any (fun q => q.url = p.url) = true
    · rw [if_pos h, ih _ u, map_replace_any, List.any_cons]
      by_cases hpu : p.url = u
      · have hau : acc.any (fun x => x.url = u) = true := by
          rw [List.any_eq_true] at h ⊢
          obtain ⟨q, hq, hqp⟩ := h
          exact ⟨q, hq, by simp at hqp ⊢; rw [hqp, hpu]⟩
        simp [hau]
      · simp [hpu]
    · rw [if_neg h, ih _ u, List.any_append, List.any_cons]
      simp [Bool.or_assoc]

/-- dedupePages preserves which URLs occur. -/
theorem dedupePages_any (ps : List Page) (u : String) :
    (dedupePages ps).any (fun p => p.url = u)
      = ps.any (fun p => p.url = u) := by
  have h := dedupePages_go_any ps [] u
  simpa [dedupePages] using h

/-- Merging a batch whose URLs avoid u does not change u's layer
count. -/
theorem layersContaining_merge_of_not_mem (layers : List Layer)
    (depth : Nat) (pag : List Page) (u : String)
    (h : u ∉ pag.map Page.url) :
    layersContaining (mergeOutlinks layers depth pag) u
      = layersContaining layers u := by
  have hpag : pag.any (fun p => p.url = u) = false := by
    rw [List.any_eq_false]
    intro p hp hpu
    exact h (List.mem_map.mpr ⟨p, hp, by simpa using hpu⟩)
  unfold mergeOutlinks
  split
  · rfl
  split
  case isTrue hlt =>
    rw [List.set_eq_take_cons_drop _ hlt]
    conv_rhs =>
      rw [← List.take_append_drop (depth + 1) layers,
        ← List.getElem_cons_drop layers (depth + 1) hlt]
    rw [layersContaining_append, layersContaining_append,
      layersContaining_cons, layersContaining_cons]
    have hany : (dedupePages ((layers.get ⟨depth + 1, hlt⟩).pages ++ pag)).any
          (fun p => p.url = u)
        = layers[depth + 1].pages.any (fun p => p.url = u) := by
      rw [dedupePages_any, List.any_append, hpag, Bool.or_false]
      rfl
    rw [hany]
  case isFalse hge =>
    rw [layersContaining_append, layersContaining_cons, layersContaining_nil]
    simp [hpag]

/-- Merging into a frontier that nowhere holds u leaves u's layer count
at most one. -/
theorem layersContaining_merge_le_one (layers : List Layer) (depth : Nat)
    (pag : List Page) (u : String)
    (h0 : layersContaining layers u = 0) :
    layersContaining (mergeOutlinks layers depth pag) u ≤ 1 := by
  unfold mergeOutlinks
  split
  · omega
  split
  case isTrue hlt =>
    have hdecomp : layersContaining layers u
        = layersContaining (layers.take (depth + 1)) u
          + ((if layers[depth + 1].pages.any (fun p => p.url = u) then 1 else 0)
            + layersContaining (layers.drop (depth + 2)) u) := by
      conv_lhs =>
        rw [← List.take_append_drop (depth + 1) layers,
          ← List.getElem_cons_drop layers (depth + 1) hlt]
      rw [layersContaining_append, layersContaining_cons]
    rw [hdecomp] at h0
    have ha : layersContaining (layers.take (depth + 1)) u = 0 := by omega
    have hc : layersContaining (layers.drop (depth + 2)) u = 0 := by omega
    rw [List.set_eq_take_cons_drop _ hlt, layersContaining_append,
      layersContaining_cons, ha, hc]
    split <;> omega
  case isFalse hge =>
    rw [layersContaining_append, layersContaining_cons, layersContaining_nil,
      h0]
    split <;> omega

/-- Every URL of a merged frontier is an old frontier URL or a batch
URL. -/
theorem frontierUrls_merge_sub (layers : List Layer) (depth : Nat)
    (pag : List Page) (u : String)
    (h : u ∈ frontierUrls (mergeOutlinks layers depth pag)) :
    u ∈ frontierUrls layers ∨ u ∈ pag.map Page.url := by
  unfold mergeOutlinks at h
  split at h
  · exact Or.inl h
  split at h
  case isTrue hlt =>
    have hfull : frontierUrls layers
        = frontierUrls (layers.take (depth + 1))
          ++ (layers[depth + 1].pages.map Page.url
            ++ frontierUrls (layers.drop (depth + 2))) := by
      conv_lhs =>
        rw [← List.take_append_drop (depth + 1) layers,
          ← List.getElem_cons_drop layers (depth + 1) hlt]
      rw [frontierUrls_append, frontierUrls_cons]
    rw [List.set_eq_take_cons_drop _ hlt, frontierUrls_append,
      frontierUrls_cons] at h
    rcases List.mem_append.mp h with h | h
    · exact Or.inl (by rw [hfull]; exact List.mem_append_left _ h)
    rcases List.mem_append.mp h with h | h
    · have hany := (mem_map_url_iff_any _ u).mp h
      rw [dedupePages_any, List.any_append] at hany
      rcases Bool.or_eq_true_iff.mp hany with h2 | h2
      · refine Or.inl ?_
        rw [hfull]
        refine List.mem_append_right _ (List.mem_append_left _ ?_)
        exact (mem_map_url_iff_any _ u).mpr h2
      · exact Or.inr ((mem_map_url_iff_any _ u).mpr h2)
    · exact Or.inl (by
        rw [hfull]
        exact List.mem_append_right _ (List.mem_append_right _ h))
  case isFalse hge =>
    rw [frontierUrls_append, frontierUrls_cons] at h
    rcases List.mem_append.mp h with h | h
    · exact Or.inl h
    rcases List.mem_append.mp h with h | h
    · exact Or.inr h
    · exact absurd h (List.not_mem_nil u)

/-- One loop step preserves the pair of invariants of a covered run:
the seen set covers every frontier URL, and every URL sits in at most
one layer. -/
theorem inv3_step (visit : Page → VisitResult) (s : CrawlState)
    (h1 : ∀ u ∈ frontierUrls s.layers, u ∈ s.seen)
    (h2 : ∀ u, layersContaining s.layers u ≤ 1) :
    (∀ u ∈ frontierUrls (step visit s).layers, u ∈ (step visit s).seen) ∧
    (∀ u, layersContaining (step visit s).layers u ≤ 1) := by
  unfold step
  split
  · exact ⟨h1, h2⟩
  next l hgi =>
    split
    · exact ⟨h1, h2⟩
    next la hgj =>
      split
      · exact ⟨h1, h2⟩
      · split
        · exact ⟨h1, h2⟩
        · exact ⟨h1, h2⟩
        next outs hv =>
          constructor
          · intro u hu
            rcases frontierUrls_merge_sub s.layers l.depth
              (dedupeOutlinks s.seen outs).2 u hu with h | h
            · exact dedupeOutlinks_seen_mono outs s.seen u (h1 u h)
            · obtain ⟨q, hq, hqu⟩ := List.mem_map.mp h
              rw [← hqu]
              exact dedupeOutlinks_pag_seen outs s.seen q hq
          · intro u
            by_cases hm : u ∈ (dedupeOutlinks s.seen outs).2.map Page.url
            · obtain ⟨q, hq, hqu⟩ := List.mem_map.mp hm
              obtain ⟨-, hqn⟩ := dedupeOutlinks_pag outs s.seen q hq
              have hnotin : u ∉ frontierUrls s.layers :=
                fun hin => hqn (hqu ▸ h1 u hin)
              exact layersContaining_merge_le_one _ _ _ u
                ((layersContaining_eq_zero_iff _ _).mpr hnotin)
            · rw [layersContaining_merge_of_not_mem _ _ _ u hm]
              exact h2 u

/-- Any number of loop steps preserves the pair of invariants. -/
theorem inv3_run (visit : Page → VisitResult) (n : Nat) (s : CrawlState)
    (h1 : ∀ u ∈ frontierUrls s.layers, u ∈ s.seen)
    (h2 : ∀ u, layersContaining s.layers u ≤ 1) :
    (∀ u ∈ frontierUrls (run visit n s).layers, u ∈ (run visit n s).seen) ∧
    (∀ u, layersContaining (run visit n s).layers u ≤ 1) := by
  induction n generalizing s with
  | zero => exact ⟨h1, h2⟩
  | succ n ih =>
    obtain ⟨g1, g2⟩ := inv3_step visit s h1 h2
    exact ih (step visit s) g1 g2

/-- mergeOutlinks of an empty batch changes nothing. -/
theorem mergeOutlinks_nil (layers : List Layer) (depth : Nat) :
    mergeOutlinks layers depth [] = layers := rfl

/-- mergeOutlinks into an existing layer is a set at index depth+1. -/
theorem mergeOutlinks_set_eq (layers : List Layer) (depth : Nat)
    (pag : List Page) (hpag : pag ≠ []) (hlt : depth + 1 < layers.length) :
    mergeOutlinks layers depth pag
      = layers.set (depth + 1)
          ⟨(layers.get ⟨depth + 1, hlt⟩).depth,
           dedupePages ((layers.get ⟨depth + 1, hlt⟩).pages ++ pag)⟩ := by
  unfold mergeOutlinks
  rw [if_neg (by simpa [List.isEmpty_iff] using hpag), dif_pos hlt]

/-- mergeOutlinks past the last layer appends a fresh layer. -/
theorem mergeOutlinks_append_eq (layers : List Layer) (depth : Nat)
    (pag : List Page) (hpag : pag ≠ [])
    (hge : ¬ depth + 1 < layers.length) :
    mergeOutlinks layers depth pag = layers ++ [⟨depth + 1, pag⟩] := by
  unfold mergeOutlinks
  rw [if_neg (by simpa [List.isEmpty_iff] using hpag), dif_neg hge]

/-- mergeOutlinks never shrinks the frontier. -/
theorem mergeOutlinks_length_ge (layers : List Layer) (depth : Nat)
    (pag : List Page) :
    layers.length ≤ (mergeOutlinks layers depth pag).length := by
  by_cases hpag : pag = []
  · rw [hpag, mergeOutlinks_nil]
  · by_cases hlt : depth + 1 < layers.length
    · rw [mergeOutlinks_set_eq layers depth pag hpag hlt, List.length_set]
    · rw [mergeOutlinks_append_eq layers depth pag hpag hlt,
        List.length_append]
      omega

/-- The dedupePages fold is the identity on URL-nodup inputs, over any
accumulator. -/
theorem dedupePages_go_eq (ps : List Page) :
    ∀ acc : List Page, ((acc ++ ps).map Page.url).Nodup →
      ps.foldl
        (fun acc p =>
          if acc.any (fun q => q.url = p.url) then
            acc.map (fun q => if q.url = p.url then p else q)
          else acc ++ [p]) acc = acc ++ ps := by
  induction ps with
  | nil =>
    intro acc _
    simp
  | cons p ps ih =>
    intro acc h
    rw [List.foldl_cons]
    have hnp : acc.any (fun q => q.url = p.url) = false := by
      rw [List.any_eq_false]
      intro q hq hqp
      have hqq : q.url = p.url := by simpa using hqp
      rw [List.map_append] at h
      have hdisj := (List.nodup_append.mp h).2.2
      refine hdisj (List.mem_map.mpr ⟨q, hq, rfl⟩) ?_
      rw [List.map_cons, hqq]
      exact List.mem_cons_self _ _
    rw [if_neg (by simp [hnp])]
    have h' : (((acc ++ [p]) ++ ps).map Page.url).Nodup := by
      rw [← List.append_cons]
      exact h
    rw [ih (acc ++ [p]) h', ← List.append_cons]

/-- dedupePages is the identity on a page list without repeated
URLs. -/
theorem dedupePages_eq_self (ps : List Page)
    (h : (ps.map Page.url).Nodup) : dedupePages ps = ps := by
  have hgo := dedupePages_go_eq ps [] (by simpa using h)
  simpa [dedupePages] using hgo

/-- Membership in pagesOf, phrased by layer index. -/
theorem mem_pagesOf (p : Page) (ls : List Layer) :
    p ∈ pagesOf ls ↔ ∃ m l, ls.get? m = some l ∧ p ∈ l.pages := by
  induction ls with
  | nil =>
    constructor
    · intro h
      exact absurd h (List.not_mem_nil p)
    · rintro ⟨m, l, hm, -⟩
      cases hm
  | cons l0 rest ih =>
    rw [pagesOf_cons]
    constructor
    · intro h
      rcases List.mem_append.mp h with h | h
      · exact ⟨0, l0, rfl, h⟩
      · obtain ⟨m, l, hm, hp⟩ := ih.mp h
        exact ⟨m + 1, l, hm, hp⟩
    · rintro ⟨m, l, hm, hp⟩
      cases m with
      | zero =>
        injection hm with hm
        subst hm
        exact List.mem_append_left _ hp
      | succ m =>
        exact List.mem_append_right _ (ih.mpr ⟨m, l, hm, hp⟩)

/-- A layer's URL block sits inside the frontier's URL list. -/
theorem frontierUrls_decomp (ls : List Layer) (m : Nat) (l0 : Layer)
    (h : ls.get? m = some l0) :
    ∃ pre post,
      frontierUrls ls = pre ++ l0.pages.map Page.url ++ post := by
  induction ls generalizing m with
  | nil => cases h
  | cons a rest ih =>
    cases m with
    | zero =>
      injection h with h
      subst h
      exact ⟨[], frontierUrls rest, by rw [frontierUrls_cons]; simp⟩
    | succ m =>
      obtain ⟨pre, post, hd⟩ := ih m h
      refine ⟨a.pages.map Page.url ++ pre, post, ?_⟩
      rw [frontierUrls_cons, hd]
      simp [List.append_assoc]

/-- A layer of a URL-nodup frontier has URL-nodup pages. -/
theorem layer_urls_nodup (ls : List Layer) (m : Nat) (l0 : Layer)
    (hn : (frontierUrls ls).Nodup) (h : ls.get? m = some l0) :
    (l0.pages.map Page.url).Nodup := by
  obtain ⟨pre, post, hd⟩ := frontierUrls_decomp ls m l0 h
  rw [hd] at hn
  refine hn.sublist ?_
  rw [List.append_assoc]
  exact ((List.sublist_append_left _ post).trans
    (List.sublist_append_right pre _))

/-- A layer's URLs are frontier URLs. -/
theorem layer_urls_sub (ls : List Layer) (m : Nat) (l0 : Layer)
    (h : ls.get? m = some l0) :
    ∀ u ∈ l0.pages.map Page.url, u ∈ frontierUrls ls := by
  obtain ⟨pre, post, hd⟩ := frontierUrls_decomp ls m l0 h
  intro u hu
  rw [hd]
  exact List.mem_append_left _ (List.mem_append_right pre hu)

/-- In a page list without repeated URLs, pages are determined by their
URL. -/
theorem eq_of_mem_of_nodup_urls (l : List Page)
    (h : (l.map Page.url).Nodup) :
    ∀ p ∈ l, ∀ q ∈ l, p.url = q.url → p = q := by
  induction l with
  | nil =>
    intro p hp
    exact absurd hp (List.not_mem_nil p)
  | cons a rest ih =>
    rw [List.map_cons, List.nodup_cons] at h
    intro p hp q hq he
    rcases List.mem_cons.mp hp with rfl | hp2 <;>
      rcases List.mem_cons.mp hq with rfl | hq2
    · rfl
    · have hm : q.url ∈ rest.map Page.url := List.mem_map.mpr ⟨q, hq2, rfl⟩
      rw [← he] at hm
      exact absurd hm h.1
    · have hm : p.url ∈ rest.map Page.url := List.mem_map.mpr ⟨p, hp2, rfl⟩
      rw [he] at hm
      exact absurd hm h.1
    · exact ih h.2 p hp2 q hq2 he

/-- initPagesAt of a present layer. -/
theorem initPagesAt_eq (f0 : List Layer) (m : Nat) (l0 : Layer)
    (h : f0.get? m = some l0) : initPagesAt f0 m = l0.pages := by
  unfold initPagesAt
  rw [h]

/-- initPagesAt past the end of the frontier. -/
theorem initPagesAt_of_ge (f0 : List Layer) (m : Nat)
    (h : f0.length ≤ m) : initPagesAt f0 m = [] := by
  unfold initPagesAt
  rw [List.get?_eq_none.mpr h]

/-- initPagesAt pages are frontier pages. -/
theorem mem_pagesOf_of_initPagesAt (f0 : List Layer) (m : Nat) (p : Page)
    (hp : p ∈ initPagesAt f0 m) : p ∈ pagesOf f0 := by
  unfold initPagesAt at hp
  cases h : f0.get? m with
  | none =>
    rw [h] at hp
    cases hp
  | some l0 =>
    rw [h] at hp
    exact (mem_pagesOf p f0).mpr ⟨m, l0, h, hp⟩

/-- The URL of a frontier page is a frontier URL. -/
theorem url_mem_frontierUrls (f0 : List Layer) (p : Page)
    (hp : p ∈ pagesOf f0) : p.url ∈ frontierUrls f0 :=
  List.mem_map.mpr ⟨p, hp, rfl⟩

/-- get? succeeding bounds the index. -/
theorem lt_length_of_get?_eq_some {α : Type} (l : List α) (n : Nat) (a : α)
    (h : l.get? n = some a) : n < l.length := by
  by_contra hge
  rw [List.get?_eq_none.mpr (by omega)] at h
  cases h

/-- get? at the updated index of a set. -/
theorem get?_set_self' {α : Type} (l : List α) (n : Nat) (a : α)
    (h : n < l.length) : (l.set n a).get? n = some a := by
  rw [List.get?_eq_getElem?]
  exact List.getElem?_set_eq_of_lt a h

/-- get? away from the updated index of a set. -/
theorem get?_set_ne' {α : Type} (l : List α) (n m : Nat) (a : α)
    (h : n ≠ m) : (l.set n a).get? m = l.get? m := by
  rw [List.get?_eq_getElem?, List.get?_eq_getElem?]
  exact List.getElem?_set_ne h

/-- initPagesAt of a URL-nodup frontier has no repeated URLs. -/
theorem initPagesAt_urls_nodup (f0 : List Layer)
    (HN : (frontierUrls f0).Nodup) (m : Nat) :
    ((initPagesAt f0 m).map Page.url).Nodup := by
  unfold initPagesAt
  split
  next l0 h => exact layer_urls_nodup f0 m l0 HN h
  next => simp

/-- initPagesAt URLs are frontier URLs. -/
theorem initPagesAt_urls_sub (f0 : List Layer) (m : Nat) :
    ∀ u ∈ (initPagesAt f0 m).map Page.url, u ∈ frontierUrls f0 := by
  unfold initPagesAt
  split
  next l0 h => exact layer_urls_sub f0 m l0 h
  next =>
    intro u hu
    simp at hu

/-- The page list of an extended layer together with a fresh batch has
no repeated URLs. -/
theorem ext_pag_urls_nodup (seeds : List String) (f0 : List Layer)
    (HN : (frontierUrls f0).Nodup) (m : Nat) (extra pag : List Page)
    (seen : List String)
    (hextra : ∀ q ∈ extra,
      q.url ∈ seen ∧ q.url ∉ seeds ∧ q.url ∉ frontierUrls f0)
    (hexnd : (extra.map Page.url).Nodup)
    (hpagf : ∀ q ∈ pag, q.url ∉ frontierUrls f0 ∧ q.url ∉ seen)
    (hpagnd : (pag.map Page.url).Nodup) :
    (((initPagesAt f0 m ++ extra) ++ pag).map Page.url).Nodup := by
  rw [List.map_append, List.map_append, List.nodup_append]
  refine ⟨?_, hpagnd, ?_⟩
  · rw [List.nodup_append]
    refine ⟨initPagesAt_urls_nodup f0 HN m, hexnd, ?_⟩
    intro u hu hu2
    obtain ⟨q, hq, rfl⟩ := List.mem_map.mp hu2
    exact (hextra q hq).2.2 (initPagesAt_urls_sub f0 m _ hu)
  · intro u hu hu2
    obtain ⟨q, hq, rfl⟩ := List.mem_map.mp hu2
    rcases List.mem_append.mp hu with hu | hu
    · exact (hpagf q hq).1 (initPagesAt_urls_sub f0 m _ hu)
    · obtain ⟨r, hr, hru⟩ := List.mem_map.mp hu
      exact (hpagf q hq).2 (hru ▸ (hextra r hr).1)

/-- One loop step preserves ResumeInv, provided visit outlinks never
re-emit a non-seed URL of the initial frontier. -/
theorem resumeInv_step (visit : Page → VisitResult) (seeds : List String)
    (frontier0 : List Layer) (s : CrawlState)
    (HV : ∀ (p : Page) (outs : List Page), visit p = .ok outs →
      ∀ q ∈ outs, q.url ∈ seeds ∨ q.url ∉ frontierUrls frontier0)
    (HN : (frontierUrls frontier0).Nodup)
    (hinv : ResumeInv seeds frontier0 s) :
    ResumeInv seeds frontier0 (step visit s) := by
  unfold step
  split
  · exact hinv
  next l hgi =>
    have hilen : s.i < s.layers.length :=
      lt_length_of_get?_eq_some s.layers s.i l hgi
    have ldepth : l.depth = s.i := (hinv.layer_ext s.i l hgi).1
    split
    next hgj =>
      refine ⟨hinv.seen_seeds, hinv.seen_fresh, hinv.len_ge, hinv.layer_ext,
        hinv.visited_src, ?_⟩
      intro m lm hm k p hk hpos
      dsimp only at hm hpos
      rcases hpos with hpos | ⟨heq, hpos⟩
      · by_cases hmi : m < s.i
        · exact hinv.proc m lm hm k p hk (Or.inl hmi)
        · have hmeq : m = s.i := by omega
          subst hmeq
          rw [hgi] at hm
          injection hm with hlm
          subst hlm
          have hlen : l.pages.length ≤ s.j := List.get?_eq_none.mp hgj
          have hk2 : k < l.pages.length :=
            lt_length_of_get?_eq_some _ k p hk
          exact hinv.proc s.i l hgi k p hk (Or.inr ⟨rfl, by omega⟩)
      · omega
    next la hgj =>
      split
      next hf =>
        refine ⟨hinv.seen_seeds, hinv.seen_fresh, hinv.len_ge,
          hinv.layer_ext, hinv.visited_src, ?_⟩
        intro m lm hm k p hk hpos
        dsimp only at hm hpos
        rcases hpos with hpos | ⟨heq, hpos⟩
        · exact hinv.proc m lm hm k p hk (Or.inl hpos)
        · subst heq
          by_cases hkj : k < s.j
          · exact hinv.proc s.i lm hm k p hk (Or.inr ⟨rfl, hkj⟩)
          · have hkeq : k = s.j := by omega
            subst hkeq
            rw [hgi] at hm
            injection hm with hlm
            subst hlm
            rw [hgj] at hk
            injection hk with hp
            subst hp
            exact Or.inl hf
      next hf =>
        have hvisited : ∀ u ∈ s.visited ++ [la.url],
            (∃ p, p ∈ pagesOf frontier0 ∧ p.url = u ∧ p.status ≠ "fetched") ∨
              u ∉ frontierUrls frontier0 := by
          intro u hu
          rcases List.mem_append.mp hu with hu | hu
          · exact hinv.visited_src u hu
          · have hueq : u = la.url := by simpa using hu
            subst hueq
            have hla : la ∈ l.pages := List.get?_mem hgj
            obtain ⟨-, extra, hpages, hextra, -⟩ := hinv.layer_ext s.i l hgi
            rw [hpages] at hla
            rcases List.mem_append.mp hla with hla | hla
            · exact Or.inl ⟨la,
                mem_pagesOf_of_initPagesAt frontier0 s.i la hla, rfl, hf⟩
            · exact Or.inr (hextra la hla).2.2
        have hprocv : ∀ (m : Nat) (lm : Layer), s.layers.get? m = some lm →
            ∀ (k : Nat) (p : Page), lm.pages.get? k = some p →
              (m < s.i ∨ (m = s.i ∧ k < s.j + 1)) →
              p.status = "fetched" ∨ p.url ∈ s.visited ++ [la.url] := by
          intro m lm hm k p hk hpos
          rcases hpos with hpos | ⟨heq, hpos⟩
          · rcases hinv.proc m lm hm k p hk (Or.inl hpos) with h | h
            · exact Or.inl h
            · exact Or.inr (List.mem_append_left _ h)
          · subst heq
            by_cases hkj : k < s.j
            · rcases hinv.proc s.i lm hm k p hk (Or.inr ⟨rfl, hkj⟩)
                with h | h
              · exact Or.inl h
              · exact Or.inr (List.mem_append_left _ h)
            · have hkeq : k = s.j := by omega
              subst hkeq
              rw [hgi] at hm
              injection hm with hlm
              subst hlm
              rw [hgj] at hk
              injection hk with hp
              subst hp
              exact Or.inr
                (List.mem_append_right _ (List.mem_cons_self _ _))
        split
        · exact ⟨hinv.seen_seeds, hinv.seen_fresh, hinv.len_ge,
            hinv.layer_ext, hvisited, hprocv⟩
        · exact ⟨hinv.seen_seeds, hinv.seen_fresh, hinv.len_ge,
            hinv.layer_ext, hvisited, hprocv⟩
        next outs hv =>
          show ResumeInv seeds frontier0
            ⟨mergeOutlinks s.layers l.depth (dedupeOutlinks s.seen outs).2,
             (dedupeOutlinks s.seen outs).1, s.i, s.j + 1,
             s.visited ++ [la.url]⟩
          have hpagq : ∀ q ∈ (dedupeOutlinks s.seen outs).2,
              q.url ∈ (dedupeOutlinks s.seen outs).1 ∧ q.url ∉ seeds ∧
                q.url ∉ frontierUrls frontier0 ∧ q.url ∉ s.seen := by
            intro q hq
            obtain ⟨hqouts, hqseen⟩ := dedupeOutlinks_pag outs s.seen q hq
            have hseeds : q.url ∉ seeds :=
              fun hs => hqseen (hinv.seen_seeds q.url hs)
            have hfront : q.url ∉ frontierUrls frontier0 := by
              rcases HV la outs hv q hqouts with h | h
              · exact absurd h hseeds
              · exact h
            exact ⟨dedupeOutlinks_pag_seen outs s.seen q hq, hseeds,
              hfront, hqseen⟩
          refine ⟨?_, ?_, ?_, ?_, ?_, ?_⟩
          · intro u hu
            exact dedupeOutlinks_seen_mono outs s.seen u
              (hinv.seen_seeds u hu)
          · intro u hu
            rcases dedupeOutlinks_mem_seen outs s.seen u hu with h | h
            · exact hinv.seen_fresh u h
            · obtain ⟨q, hq, hqu⟩ := List.mem_map.mp h
              exact Or.inr (hqu ▸ (hpagq q hq).2.2.1)
          · exact le_trans hinv.len_ge
              (mergeOutlinks_length_ge s.layers l.depth _)
          · intro m lm hm
            dsimp only at hm ⊢
            by_cases hpag0 : (dedupeOutlinks s.seen outs).2 = []
            · rw [hpag0, mergeOutlinks_nil] at hm
              obtain ⟨hd, extra, hpages, hextra, hnd⟩ :=
                hinv.layer_ext m lm hm
              refine ⟨hd, extra, hpages, ?_, hnd⟩
              intro q hq
              exact ⟨dedupeOutlinks_seen_mono outs s.seen q.url
                  (hextra q hq).1, (hextra q hq).2.1, (hextra q hq).2.2⟩
            · by_cases hlt : l.depth + 1 < s.layers.length
              · rw [mergeOutlinks_set_eq s.layers l.depth _ hpag0 hlt]
                  at hm
                by_cases hmeq : m = l.depth + 1
                · subst hmeq
                  rw [get?_set_self' _ _ _ hlt] at hm
                  have hlm : lm = ⟨(s.layers.get ⟨l.depth + 1, hlt⟩).depth,
                      dedupePages ((s.layers.get ⟨l.depth + 1, hlt⟩).pages
                        ++ (dedupeOutlinks s.seen outs).2)⟩ := by
                    injection hm with h
                    exact h.symm
                  subst hlm
                  have hexg : s.layers.get? (l.depth + 1)
                      = some (s.layers.get ⟨l.depth + 1, hlt⟩) :=
                    List.get?_eq_get hlt
                  obtain ⟨hexd, extra, hexpages, hextra, hexnd⟩ :=
                    hinv.layer_ext (l.depth + 1) _ hexg
                  have hpagf : ∀ q ∈ (dedupeOutlinks s.seen outs).2,
                      q.url ∉ frontierUrls frontier0 ∧ q.url ∉ s.seen :=
                    fun q hq => ⟨(hpagq q hq).2.2.1, (hpagq q hq).2.2.2⟩
                  have hnodup :
                      (((s.layers.get ⟨l.depth + 1, hlt⟩).pages
                        ++ (dedupeOutlinks s.seen outs).2).map
                          Page.url).Nodup := by
                    rw [hexpages]
                    exact ext_pag_urls_nodup seeds frontier0 HN
                      (l.depth + 1) extra _ s.seen hextra hexnd hpagf
                      (dedupeOutlinks_pag_nodup outs s.seen)
                  have hded := dedupePages_eq_self _ hnodup
                  refine ⟨hexd, extra ++ (dedupeOutlinks s.seen outs).2,
                    ?_, ?_, ?_⟩
                  · show dedupePages _ = _
                    rw [hded, hexpages, List.append_assoc]
                  · intro q hq
                    rcases List.mem_append.mp hq with hq | hq
                    · exact ⟨dedupeOutlinks_seen_mono outs s.seen q.url
                        (hextra q hq).1, (hextra q hq).2.1,
                        (hextra q hq).2.2⟩
                    · exact ⟨(hpagq q hq).1, (hpagq q hq).2.1,
                        (hpagq q hq).2.2.1⟩
                  · rw [List.map_append, List.nodup_append]
                    refine ⟨hexnd, dedupeOutlinks_pag_nodup outs s.seen, ?_⟩
                    intro u hu hu2
                    obtain ⟨q, hq, rfl⟩ := List.mem_map.mp hu2
                    obtain ⟨r, hr, hru⟩ := List.mem_map.mp hu
                    exact (hpagq q hq).2.2.2 (hru ▸ (hextra r hr).1)
                · rw [get?_set_ne' _ _ _ _ (fun hx => hmeq hx.symm)] at hm
                  obtain ⟨hd, extra, hpages, hextra, hnd⟩ :=
                    hinv.layer_ext m lm hm
                  refine ⟨hd, extra, hpages, ?_, hnd⟩
                  intro q hq
                  exact ⟨dedupeOutlinks_seen_mono outs s.seen q.url
                      (hextra q hq).1, (hextra q hq).2.1,
                    (hextra q hq).2.2⟩
              · rw [mergeOutlinks_append_eq s.layers l.depth _ hpag0 hlt]
                  at hm
                have hleneq : s.layers.length = l.depth + 1 := by omega
                by_cases hmlt : m < s.layers.length
                · rw [List.get?_append hmlt] at hm
                  obtain ⟨hd, extra, hpages, hextra, hnd⟩ :=
                    hinv.layer_ext m lm hm
                  refine ⟨hd, extra, hpages, ?_, hnd⟩
                  intro q hq
                  exact ⟨dedupeOutlinks_seen_mono outs s.seen q.url
                      (hextra q hq).1, (hextra q hq).2.1,
                    (hextra q hq).2.2⟩
                · by_cases hmeq : m = s.layers.length
                  · subst hmeq
                    rw [List.get?_append_right (le_refl _), Nat.sub_self]
                      at hm
                    have hlm : lm = ⟨l.depth + 1,
                        (dedupeOutlinks s.seen outs).2⟩ := by
                      injection hm with h
                      exact h.symm
                    subst hlm
                    refine ⟨by dsimp only; omega,
                      (dedupeOutlinks s.seen outs).2,
                      ?_, ?_, dedupeOutlinks_pag_nodup outs s.seen⟩
                    · rw [initPagesAt_of_ge frontier0 _
                        (le_trans hinv.len_ge (by omega)),
                        List.nil_append]
                    · intro q hq
                      exact ⟨(hpagq q hq).1, (hpagq q hq).2.1,
                        (hpagq q hq).2.2.1⟩
                  · rw [List.get?_append_right (by omega)] at hm
                    have hnone : ([(⟨l.depth + 1,
                        (dedupeOutlinks s.seen outs).2⟩ : Layer)]).get?
                          (m - s.layers.length) = none := by
                      rw [List.get?_eq_none]
                      simp only [List.length_singleton]
                      omega
                    rw [hnone] at hm
                    cases hm
          · exact hvisited
          · intro m lm hm k p hk hpos
            dsimp only at hm hpos
            have hunch : (mergeOutlinks s.layers l.depth
                  (dedupeOutlinks s.seen outs).2).get? m
                = s.layers.get? m := by
              have hmi : m ≤ s.i := by
                rcases hpos with h | ⟨h, -⟩
                · omega
                · omega
              by_cases hpag0 : (dedupeOutlinks s.seen outs).2 = []
              · rw [hpag0, mergeOutlinks_nil]
              · by_cases hlt : l.depth + 1 < s.layers.length
                · rw [mergeOutlinks_set_eq s.layers l.depth _ hpag0 hlt]
                  exact get?_set_ne' _ _ _ _ (by omega)
                · rw [mergeOutlinks_append_eq s.layers l.depth _ hpag0 hlt]
                  exact List.get?_append (by omega)
            rw [hunch] at hm
            exact hprocv m lm hm k p hk hpos

/-- ResumeInv holds at loop entry when the loaded frontier's layer
depths equal their indices. -/
theorem resumeInv_init (seeds : List String) (frontier0 : List Layer)
    (HD : ∀ (m : Nat) (l : Layer), frontier0.get? m = some l →
      l.depth = m) :
    ResumeInv seeds frontier0 (initState frontier0 seeds) := by
  refine ⟨?_, ?_, ?_, ?_, ?_, ?_⟩
  · intro u hu
    exact hu
  · intro u hu
    exact Or.inl hu
  · exact le_refl _
  · intro m l hm
    refine ⟨HD m l hm, [], ?_, ?_, ?_⟩
    · rw [initPagesAt_eq frontier0 m l hm, List.append_nil]
    · intro q hq
      exact absurd hq (List.not_mem_nil q)
    · simp
  · intro u hu
    exact absurd hu (List.not_mem_nil u)
  · intro m lm hm k p hk hpos
    simp only [initState] at hpos
    omega

/-- ResumeInv is preserved by any number of loop steps. -/
theorem resumeInv_run (visit : Page → VisitResult) (seeds : List String)
    (frontier0 : List Layer)
    (HV : ∀ (p : Page) (outs : List Page), visit p = .ok outs →
      ∀ q ∈ outs, q.url ∈ seeds ∨ q.url ∉ frontierUrls frontier0)
    (HN : (frontierUrls frontier0).Nodup) (n : Nat) (s : CrawlState)
    (hinv : ResumeInv seeds frontier0 s) :
    ResumeInv seeds frontier0 (run visit n s) := by
  induction n generalizing s with
  | zero => exact hinv
  | succ n ih =>
    exact ih (step visit s)
      (resumeInv_step visit seeds frontier0 s HV HN hinv)

/-- splitChars always returns at least one segment. -/
theorem splitChars_ne_nil (sep : Char) (cs : List Char) (cur : List Char) :
    splitChars sep cs cur ≠ [] := by
  induction cs generalizing cur with
  | nil => simp [splitChars]
  | cons c rest ih =>
    unfold splitChars
    split
    · simp
    · exact ih _

/-- splitOnSlash always returns at least one segment, like Go's
strings.Split. -/
theorem splitOnSlash_ne_nil (s : String) : splitOnSlash s ≠ [] :=
  splitChars_ne_nil _ _ _

/-- messageNumberOf always succeeds, returning the last segment of the
permalink: the empty-split guard of the source is dead code. -/
theorem messageNumberOf_eq (link : String) :
    messageNumberOf link = some ((splitOnSlash link).getLastD "") := by
  unfold messageNumberOf
  have h : splitOnSlash link ≠ [] := splitOnSlash_ne_nil link
  rw [if_pos (List.length_pos.mpr h)]
  cases hsp : splitOnSlash link with
  | nil => exact absurd hsp h
  | cons a as =>
    rw [List.getLastD_eq_getLast?]
    obtain ⟨x, hx⟩ := Option.isSome_iff_exists.mp
      (List.getLast?_isSome.mpr (List.cons_ne_nil a as))
    rw [hx]
    rfl

/-- contentSwitch succeeds exactly when contentPanics is false. -/
theorem contentSwitch_some (env : ExtractEnv) (c : MsgContent)
    (errIn : Option String) (h : contentPanics c = false) :
    ∃ so, contentSwitch env c errIn = some so := by
  cases c with
  | text b => exact ⟨_, rfl⟩
  | video v cap =>
    cases v with
    | none => exact ⟨_, rfl⟩
    | some vi =>
      cases vi with
      | mk thumb vid => cases thumb <;> exact ⟨_, rfl⟩
  | photo sizes cap =>
    cases sizes with
    | nil => simp [contentPanics] at h
    | cons s rest => exact ⟨_, rfl⟩
  | animation thumb cap =>
    cases thumb with
    | none => simp [contentPanics] at h
    | some t => exact ⟨_, rfl⟩
  | animatedEmoji e => exact ⟨_, rfl⟩
  | poll q => exact ⟨_, rfl⟩
  | giveaway p => exact ⟨_, rfl⟩
  | paidMedia cap => exact ⟨_, rfl⟩
  | sticker sid => exact ⟨_, rfl⟩
  | giveawayWinners => exact ⟨_, rfl⟩
  | giveawayCompleted => exact ⟨_, rfl⟩
  | videoNote thumb vid =>
    cases thumb with
    | none => simp [contentPanics] at h
    | some t => exact ⟨_, rfl⟩
  | document fn thumb did =>
    cases thumb with
    | none => simp [contentPanics] at h
    | some t => exact ⟨_, rfl⟩
  | unknown n => exact ⟨_, rfl⟩

/-- contentSwitch panics exactly when contentPanics is true. -/
theorem contentSwitch_none (env : ExtractEnv) (c : MsgContent)
    (errIn : Option String) (h : contentPanics c = true) :
    contentSwitch env c errIn = none := by
  cases c with
  | photo sizes cap =>
    cases sizes with
    | nil => rfl
    | cons s rest => simp [contentPanics] at h
  | animation thumb cap =>
    cases thumb with
    | none => rfl
    | some t => simp [contentPanics] at h
  | videoNote thumb vid =>
    cases thumb with
    | none => rfl
    | some t => simp [contentPanics] at h
  | document fn thumb did =>
    cases thumb with
    | none => rfl
    | some t => simp [contentPanics] at h
  | text b => simp [contentPanics] at h
  | video v cap => simp [contentPanics] at h
  | animatedEmoji e => simp [contentPanics] at h
  | poll q => simp [contentPanics] at h
  | giveaway p => simp [contentPanics] at h
  | paidMedia cap => simp [contentPanics] at h
  | sticker sid => simp [contentPanics] at h
  | giveawayWinners => simp [contentPanics] at h
  | giveawayCompleted => simp [contentPanics] at h
  | unknown n => simp [contentPanics] at h

/-- sumReactionCounts vanishes for an emoji no entry bears. -/
theorem sumReactionCounts_eq_zero (entries : List ReactionEntry) (e : String)
    (h : e ∉ emojiKeys entries) : sumReactionCounts entries e = 0 := by
  unfold sumReactionCounts
  have hf : entries.filter (fun r => r.rtype = some (.emoji e)) = [] := by
    rw [List.filter_eq_nil_iff]
    intro r hr
    intro hp
    apply h
    have hrt : r.rtype = some (.emoji e) := by simpa using hp
    exact List.mem_filterMap.mpr ⟨r, hr, by rw [hrt]⟩
  rw [hf]
  simp

/-- reactionsOf builds, over any accumulator disjoint from the entry
emojis, the map that sends each emoji with pairwise distinct entries
to the sum of its counts (a single entry's count). -/
theorem reactionsOf_lookup (entries : List ReactionEntry)
    (acc : List (String × Int)) (e : String)
    (hnd : (emojiKeys entries).Nodup)
    (hdis : ∀ k ∈ emojiKeys entries, acc.find? (fun x => x.1 = k) = none) :
    lookupReaction
      (entries.foldl
        (fun acc r =>
          match r.rtype with
          | some (.emoji k) => setReaction acc k r.totalCount
          | _ => acc) acc) e
      = if e ∈ emojiKeys entries then some (sumReactionCounts entries e)
        else lookupReaction acc e := by
  induction entries generalizing acc with
  | nil => simp [emojiKeys]
  | cons r rest ih =>
    rw [List.foldl_cons]
    cases hr : r.rtype with
    | none =>
      have hek : emojiKeys (r :: rest) = emojiKeys rest := by
        simp [emojiKeys, hr]
      have hsum : ∀ x, sumReactionCounts (r :: rest) x = sumReactionCounts rest x := by
        intro x
        simp [sumReactionCounts, hr]
      rw [hek] at hnd hdis
      simp only [hr]
      rw [ih acc hnd hdis, hek]
      by_cases he : e ∈ emojiKeys rest <;> simp [he, hsum]
    | some rt =>
      cases rt with
      | custom cid =>
        have hek : emojiKeys (r :: rest) = emojiKeys rest := by
          simp [emojiKeys, hr]
        have hsum : ∀ x, sumReactionCounts (r :: rest) x = sumReactionCounts rest x := by
          intro x
          simp [sumReactionCounts, hr]
        rw [hek] at hnd hdis
        simp only [hr]
        rw [ih acc hnd hdis, hek]
        by_cases he : e ∈ emojiKeys rest <;> simp [he, hsum]
      | emoji k =>
        have hek : emojiKeys (r :: rest) = k :: emojiKeys rest := by
          simp [emojiKeys, hr]
        rw [hek] at hnd
        have hkrest : k ∉ emojiKeys rest := (List.nodup_cons.mp hnd).1
        have hndrest : (emojiKeys rest).Nodup := (List.nodup_cons.mp hnd).2
        have hkacc : acc.find? (fun x => x.1 = k) = none :=
          hdis k (by rw [hek]; exact List.mem_cons_self k _)
        have hany : acc.any (fun x => x.1 = k) = false := by
          rw [List.any_eq_false]
          intro x hx
          have := List.find?_eq_none.mp hkacc x hx
          simpa using this
        have hset : setReaction acc k r.totalCount = acc ++ [(k, r.totalCount)] := by
          unfold setReaction
          rw [hany]
          simp
        have hdis' : ∀ k' ∈ emojiKeys rest,
            (acc ++ [(k, r.totalCount)]).find? (fun x => x.1 = k') = none := by
          intro k' hk'
          rw [List.find?_append]
          have h1 : acc.find? (fun x => x.1 = k') = none :=
            hdis k' (by rw [hek]; exact List.mem_cons_of_mem _ hk')
          have hne : k ≠ k' := fun hkk => hkrest (hkk ▸ hk')
          rw [h1]
          simp [Option.orElse, hne]
        simp only [hr, hset]
        rw [ih _ hndrest hdis']
        by_cases he : e ∈ emojiKeys rest
        · have hke : e ≠ k := fun hke => hkrest (hke ▸ he)
          rw [if_pos he, if_pos (by rw [hek]; exact List.mem_cons_of_mem _ he)]
          have : sumReactionCounts (r :: rest) e = sumReactionCounts rest e := by
            simp [sumReactionCounts, hr, Ne.symm hke]
          rw [this]
        · rw [if_neg he]
          by_cases hke : e = k
          · subst hke
            rw [if_pos (by rw [hek]; exact List.mem_cons_self e _)]
            have hlu : lookupReaction (acc ++ [(e, r.totalCount)]) e
                = some r.totalCount := by
              unfold lookupReaction
              rw [List.find?_append, hkacc]
              simp [Option.orElse]
            rw [hlu]
            have : sumReactionCounts (r :: rest) e
                = r.totalCount + sumReactionCounts rest e := by
              simp [sumReactionCounts, hr]
            rw [this, sumReactionCounts_eq_zero rest e hkrest]
            simp
          · rw [if_neg (by rw [hek]; simp [hke, he])]
            unfold lookupReaction
            rw [List.find?_append]
            have h2 : List.find? (fun x => x.1 = e) [(k, r.totalCount)] = none := by
              simp [List.find?, Ne.symm hke]
            cases hfa : acc.find? (fun x => x.1 = e) with
            | none => simp [Option.orElse, h2]
            | some v => simp [Option.orElse]

/-! ## Claim theorems -/

/-- C1 (code bug): the claim says a panic during a visit is converted
into Status = error on that page only, with siblings still reaching
fetched or error.  The run shown here seeds ["a", "b"] with a visit
that panics on "a" and succeeds on "b"; the panic is indeed caught,
both pages are processed (visited = ["a", "b"]) and the run reaches
its termination condition — but the final frontier is bit-for-bit the
initial one: no page carries "error" or "fetched", because the panic
branch of `launch` assigns no status at all, and the fetched/error
assignments land on the local copy `la := l.Pages[j]`, never written
back. -/
theorem claim_C1 :
    finished
      (run c1PanicVisit 10 (initState (seedFrontier ["a", "b"]) ["a", "b"])) = true ∧
    (run c1PanicVisit 10 (initState (seedFrontier ["a", "b"]) ["a", "b"])).visited
      = ["a", "b"] ∧
    (run c1PanicVisit 10 (initState (seedFrontier ["a", "b"]) ["a", "b"])).layers
      = [⟨0, [⟨"a", "unvisited"⟩, ⟨"b", "unvisited"⟩]⟩] ∧
    ∀ p ∈ pagesOf
      (run c1PanicVisit 10 (initState (seedFrontier ["a", "b"]) ["a", "b"])).layers,
      p.status ≠ "error" ∧ p.status ≠ "fetched" := by
  decide

/-- C2 (counterexample): a resumed frontier holds "a" (unvisited,
depth 0) and "b" (fetched, depth 1); the seen set starts from the
seeds ["a"] only.  Visiting "a" rediscovers "b", which is merged over
the fetched entry (last write wins) with a fresh status, and the loop
then invokes the visit function on "b" — a page the claim says is
never visited nor modified. -/
theorem claim_C2_counterexample :
    (⟨"b", "fetched"⟩ : Page) ∈ pagesOf c2ResumeStart.layers ∧
    "b" ∈ (run c2ResumeVisit 10 c2ResumeStart).visited ∧
    (run c2ResumeVisit 10 c2ResumeStart).layers
      = [⟨0, [⟨"a", "unvisited"⟩]⟩, ⟨1, [⟨"b", "unvisited"⟩]⟩] := by
  decide

/-- C3 (counterexample): on a resumed frontier holding "b" at depth 2,
the seen set is rebuilt from the seeds ["a"] alone, so visiting "a"
with outlink "b" folds "b" into layer 1 while it still sits in
layer 2 — after one loop iteration the identifier "b" occupies two
layers. -/
theorem claim_C3_counterexample :
    layersContaining (run c2ResumeVisit 1 c3ResumeStart).layers "b" = 2 ∧
    ¬ atMostOneLayer (run c2ResumeVisit 1 c3ResumeStart).layers := by
  refine ⟨by decide, fun h => absurd (h "b") (by decide)⟩

/-- C2 (amended): on a loaded frontier (layer depths matching their
indices, no repeated URLs) whose visits never re-emit a non-seed URL
of that frontier, a completed run invokes the visit function on
exactly the non-fetched pages among the frontier's pages — every page
not marked fetched (unvisited or error, so error pages are retried) is
visited, and no page marked fetched is ever visited — and every
fetched page survives in the final frontier bit-for-bit (same layer,
same status).  Without the outlink condition the claim fails: the seen
set holds only the seeds, and a rediscovered frontier URL is reset and
re-visited (see the counterexample). -/
theorem claim_C2 :
    ∀ (visit : Page → VisitResult) (seeds : List String)
      (frontier0 : List Layer) (n : Nat),
      (∀ (p : Page) (outs : List Page), visit p = .ok outs →
        ∀ q ∈ outs, q.url ∈ seeds ∨ q.url ∉ frontierUrls frontier0) →
      (∀ (m : Nat) (l : Layer), frontier0.get? m = some l →
        l.depth = m) →
      (frontierUrls frontier0).Nodup →
      finished (run visit n (initState frontier0 seeds)) = true →
      (∀ p ∈ pagesOf frontier0, p.status = "fetched" →
        p.url ∉ (run visit n (initState frontier0 seeds)).visited ∧
        p ∈ pagesOf (run visit n (initState frontier0 seeds)).layers) ∧
      (∀ p ∈ pagesOf frontier0, p.status ≠ "fetched" →
        p.url ∈ (run visit n (initState frontier0 seeds)).visited) := by
  intro visit seeds frontier0 n HV HD HN HF
  have hinv : ResumeInv seeds frontier0
      (run visit n (initState frontier0 seeds)) :=
    resumeInv_run visit seeds frontier0 HV HN n _
      (resumeInv_init seeds frontier0 HD)
  constructor
  · intro p hp hfet
    constructor
    · intro hvis
      rcases hinv.visited_src p.url hvis with ⟨q, hq, hqu, hqs⟩ | hnot
      · have hqp : q = p :=
          eq_of_mem_of_nodup_urls (pagesOf frontier0) HN q hq p hp hqu
        rw [hqp] at hqs
        exact hqs hfet
      · exact hnot (url_mem_frontierUrls frontier0 p hp)
    · obtain ⟨m, l0, hm0, hpl⟩ := (mem_pagesOf p frontier0).mp hp
      have hmlt : m < frontier0.length :=
        lt_length_of_get?_eq_some _ _ _ hm0
      have hmlt2 : m <
          (run visit n (initState frontier0 seeds)).layers.length :=
        lt_of_lt_of_le hmlt hinv.len_ge
      have hms := List.get?_eq_get hmlt2
      obtain ⟨-, extra, hpages, -, -⟩ := hinv.layer_ext m _ hms
      refine (mem_pagesOf p _).mpr ⟨m, _, hms, ?_⟩
      rw [hpages, initPagesAt_eq frontier0 m l0 hm0]
      exact List.mem_append_left _ hpl
  · intro p hp hnfet
    obtain ⟨m, l0, hm0, hpl⟩ := (mem_pagesOf p frontier0).mp hp
    obtain ⟨k, hk⟩ := List.get?_of_mem hpl
    have hmlt : m < frontier0.length :=
      lt_length_of_get?_eq_some _ _ _ hm0
    have hmlt2 : m <
        (run visit n (initState frontier0 seeds)).layers.length :=
      lt_of_lt_of_le hmlt hinv.len_ge
    have hms := List.get?_eq_get hmlt2
    obtain ⟨-, extra, hpages, -, -⟩ := hinv.layer_ext m _ hms
    have hkfin : ((run visit n (initState frontier0 seeds)).layers.get
        ⟨m, hmlt2⟩).pages.get? k = some p := by
      rw [hpages, initPagesAt_eq frontier0 m l0 hm0,
        List.get?_append (lt_length_of_get?_eq_some _ _ _ hk)]
      exact hk
    have hile : (run visit n (initState frontier0 seeds)).layers.length
        ≤ (run visit n (initState frontier0 seeds)).i := by
      simpa [finished] using HF
    rcases hinv.proc m _ hms k p hkfin (Or.inl (by omega)) with h | h
    · exact absurd h hnfet
    · exact h

/-- C2 amended-claim witness: resuming the loaded frontier
[a unvisited; b fetched] with a visit that only discovers the fresh
URL "c": the fetched page "b" is never visited and survives unchanged,
while the non-fetched seed "a" is visited. -/
theorem claim_C2_witness :
    "b" ∉ (run c2WitnessVisit 10
        (initState c2WitnessFrontier ["a"])).visited ∧
    (⟨"b", "fetched"⟩ : Page) ∈ pagesOf
      (run c2WitnessVisit 10 (initState c2WitnessFrontier ["a"])).layers ∧
    "a" ∈ (run c2WitnessVisit 10
        (initState c2WitnessFrontier ["a"])).visited := by
  have HV : ∀ (p : Page) (outs : List Page),
      c2WitnessVisit p = .ok outs →
      ∀ q ∈ outs, q.url ∈ (["a"] : List String) ∨
        q.url ∉ frontierUrls c2WitnessFrontier := by
    intro p outs h q hq
    unfold c2WitnessVisit at h
    by_cases hp : p.url = "a"
    · rw [if_pos hp] at h
      injection h with h
      subst h
      have : q = ⟨"c", "unvisited"⟩ := by simpa using hq
      subst this
      exact Or.inr (by decide)
    · rw [if_neg hp] at h
      injection h with h
      subst h
      exact absurd hq (List.not_mem_nil q)
  have HD : ∀ (m : Nat) (l : Layer),
      c2WitnessFrontier.get? m = some l → l.depth = m := by
    intro m l hm
    match m, hm with
    | 0, hm =>
      injection hm with hm
      rw [← hm]
    | 1, hm =>
      injection hm with hm
      rw [← hm]
  have h := claim_C2 c2WitnessVisit ["a"] c2WitnessFrontier 10 HV HD
    (by decide) (by decide)
  refine ⟨(h.1 ⟨"b", "fetched"⟩ (by decide) rfl).1,
    (h.1 ⟨"b", "fetched"⟩ (by decide) rfl).2,
    h.2 ⟨"a", "unvisited"⟩ (by decide) (by decide)⟩

/-- C3 (amended): whenever the initial seen set covers every URL of
the initial frontier — in particular on every fresh run, whose
frontier is exactly the seed layer — every identifier occupies at most
one layer at every point of the run (after any number of steps):
already-seen outlinks are dropped and in-batch duplicates collapse.
The second conjunct is the spec's scenario: seed ["a"], visiting "a"
with outlinks ["b", "a", "b"] leaves layer 1 holding exactly the
single page "b".  (On a resumed frontier the seen set holds only the
seeds, and the claim fails — see the counterexample.) -/
theorem claim_C3 :
    (∀ (visit : Page → VisitResult) (seeds : List String)
      (frontier0 : List Layer) (n : Nat),
      (∀ u ∈ frontierUrls frontier0, u ∈ seeds) →
      atMostOneLayer frontier0 →
      atMostOneLayer (run visit n (initState frontier0 seeds)).layers) ∧
    (run c3ScenarioVisit 10 (initState (seedFrontier ["a"]) ["a"])).layers
      = [⟨0, [⟨"a", "unvisited"⟩]⟩, ⟨1, [⟨"b", "unvisited"⟩]⟩] := by
  constructor
  · intro visit seeds frontier0 n hseen hone
    exact (inv3_run visit n (initState frontier0 seeds) hseen hone).2
  · decide

/-- C3 witness: a fresh run from seeds ["a", "b"] under the scenario
visit function; both hypotheses hold for its seed frontier and the
dedup invariant holds after the whole run. -/
theorem claim_C3_witness :
    atMostOneLayer
      (run c3ScenarioVisit 10
        (initState (seedFrontier ["a", "b"]) ["a", "b"])).layers :=
  claim_C3.1 c3ScenarioVisit ["a", "b"] (seedFrontier ["a", "b"]) 10
    (by decide) (fun u => List.length_filter_le _ _)

/-- C4 (code bug): the claim says that for video, document and
video-note messages the second fetched-and-uploaded item is the media
body.  For the document message with thumbnail id "t" and body id "d",
the emitted trace fetches and uploads the THUMBNAIL twice (source
line 435 passes thumbnailPath where videoPath was just assigned on
line 434) while the record still advertises "d" as its media URL —
"d" is never fetched.  The video-note case (line 419) has the same
slip; only the video case fetches the body. -/
theorem claim_C4 :
    (ParseMessage c4Env "crawl1" c4Msg ⟨"https://t.me/chan/42"⟩ ⟨7, "Chan"⟩
        (some ⟨100⟩) 3 9 "chan").2.2
      = [.fetch "t", .upload "local-t", .fetch "t", .upload "local-t", .store] ∧
    (ParseMessage c4Env "crawl1" c4Msg ⟨"https://t.me/chan/42"⟩ ⟨7, "Chan"⟩
        (some ⟨100⟩) 3 9 "chan").1.mediaUrl = "d" ∧
    MediaEvent.fetch "d" ∉
      (ParseMessage c4Env "crawl1" c4Msg ⟨"https://t.me/chan/42"⟩ ⟨7, "Chan"⟩
        (some ⟨100⟩) 3 9 "chan").2.2 := by
  decide

/-- C5 (counterexample): two photo messages that differ only in the
photo's platform remote id are extracted under the same crawl id,
channel, permalink and upload outcome — the blob sink stores both
under the same key and the fetched local path is "/tmp/file1" in both
runs — yet the records' thumbnail fields differ, each equal to its
platform remote id.  The thumbnail field is therefore not a reference
determined by the uploaded blob's location (it is the pre-upload
remote id; it is also not the local path here). -/
theorem claim_C5_counterexample :
    (ParseMessage c5Env "crawl1" c5MsgA ⟨"https://t.me/chan/42"⟩ ⟨7, "Chan"⟩
        (some ⟨100⟩) 3 9 "chan").1.thumbUrl = "remoteA" ∧
    (ParseMessage c5Env "crawl1" c5MsgB ⟨"https://t.me/chan/42"⟩ ⟨7, "Chan"⟩
        (some ⟨100⟩) 3 9 "chan").1.thumbUrl = "remoteB" ∧
    MediaEvent.upload "/tmp/file1" ∈
      (ParseMessage c5Env "crawl1" c5MsgA ⟨"https://t.me/chan/42"⟩ ⟨7, "Chan"⟩
        (some ⟨100⟩) 3 9 "chan").2.2 ∧
    MediaEvent.upload "/tmp/file1" ∈
      (ParseMessage c5Env "crawl1" c5MsgB ⟨"https://t.me/chan/42"⟩ ⟨7, "Chan"⟩
        (some ⟨100⟩) 3 9 "chan").2.2 ∧
    (ParseMessage c5Env "crawl1" c5MsgA ⟨"https://t.me/chan/42"⟩ ⟨7, "Chan"⟩
        (some ⟨100⟩) 3 9 "chan").1.thumbUrl ≠ "/tmp/file1" := by
  decide

/-- C9 (counterexample): the claim says the only non-nil error
ParseMessage can return is "failed to parse message", produced by the
recover at the function boundary.  Here a video message whose upload
fails (err last holds "upload failed") carries a non-empty reaction
list, registering the inner reaction recover; the nil supergroup info
then panics while the record is assembled, the INNER recover absorbs
the panic, and the function returns the stale upload error — non-nil
and different from "failed to parse message". -/
theorem claim_C9_counterexample :
    (ParseMessage c9Env "crawl1" c9Msg ⟨"https://t.me/chan/42"⟩ ⟨7, "Chan"⟩
        none 3 9 "chan").2.1 = some "upload failed" ∧
    some "upload failed" ≠ (none : Option String) ∧
    "upload failed" ≠ "failed to parse message" := by
  decide

/-- C10: fetchfilefromtelegram is a total String-valued function — it
returns no error to its caller — and every failure path degrades to
the empty string: a remote-file lookup error, a download error, and an
empty downloaded local path all yield ""; only a successful download
with a non-empty path returns that path (which the caller then hands
to the blob-sink upload). -/
theorem claim_C10 :
    ∀ (env : TdEnv) (id : String),
      (∀ e, env.getRemoteFile id = .error e →
        fetchfilefromtelegram env id = "") ∧
      (∀ f e, env.getRemoteFile id = .ok f → env.downloadFile f.id = .error e →
        fetchfilefromtelegram env id = "") ∧
      (∀ f d, env.getRemoteFile id = .ok f → env.downloadFile f.id = .ok d →
        d.localPath = "" → fetchfilefromtelegram env id = "") ∧
      (∀ f d, env.getRemoteFile id = .ok f → env.downloadFile f.id = .ok d →
        d.localPath ≠ "" → fetchfilefromtelegram env id = d.localPath) := by
  intro env id
  refine ⟨?_, ?_, ?_, ?_⟩
  · intro e h
    simp [fetchfilefromtelegram, h]
  · intro f e h1 h2
    simp [fetchfilefromtelegram, h1, h2]
  · intro f d h1 h2 h3
    simp [fetchfilefromtelegram, h1, h2, h3]
  · intro f d h1 h2 h3
    simp [fetchfilefromtelegram, h1, h2, h3]

/-- C5 (amended): for every photo message with a non-empty size list,
the record's thumbnail field is the photo's platform remote file
identifier — exactly the id handed to the media fetch — regardless of
the upload and of the blob location; the fetch/upload/store trace
confirms the id is what was fetched.  (It is not the uploaded blob
reference, and it is the local filesystem path only if the platform id
happens to coincide with it.) -/
theorem claim_C5 :
    ∀ (env : ExtractEnv) (crawlid : String) (date edate cid : Int)
      (s : String) (rest : List String) (cap : String)
      (ii : Option InteractionInfo) (mlr : MessageLink) (chat : Chat)
      (sgi : SupergroupFullInfo) (pc vc : Int) (ch : String),
      yearOfUnix date ≥ 2018 →
      (ParseMessage env crawlid ⟨date, edate, cid, .photo (s :: rest) cap, ii⟩
          mlr chat (some sgi) pc vc ch).1.thumbUrl = s ∧
      (ParseMessage env crawlid ⟨date, edate, cid, .photo (s :: rest) cap, ii⟩
          mlr chat (some sgi) pc vc ch).2.2
        = [.fetch s, .upload (env.fetchFile s), .store] := by
  intro env crawlid date edate cid s rest cap ii mlr chat sgi pc vc ch hy
  unfold ParseMessage
  rw [if_neg (by omega : ¬ yearOfUnix date < 2018)]
  rw [messageNumberOf_eq]
  simp [contentSwitch, fetchUpload]

/-- C5 amended-claim witness: the concrete photo run of the
counterexample, instantiating the amended statement. -/
theorem claim_C5_witness :
    yearOfUnix 1600000000 ≥ 2018 ∧
    (ParseMessage c5Env "crawl1" ⟨1600000000, 0, 7, .photo (["remoteA"]) "cap",
        none⟩ ⟨"https://t.me/chan/42"⟩ ⟨7, "Chan"⟩ (some ⟨100⟩) 3 9
        "chan").1.thumbUrl = "remoteA" :=
  ⟨by decide,
    (claim_C5 c5Env "crawl1" 1600000000 0 7 "remoteA" [] "cap" none
      ⟨"https://t.me/chan/42"⟩ ⟨7, "Chan"⟩ ⟨100⟩ 3 9 "chan" (by decide)).1⟩

/-- C8 (counterexample): two reaction entries bearing the same emoji
"x" with counts 3 and 5: the source's map ASSIGNMENT keeps the last
count 5, while the claimed per-emoji SUM is 8 — the produced mapping
is not the sum over all entries. -/
theorem claim_C8_counterexample :
    lookupReaction
        (reactionsOf [⟨some (.emoji "x"), 3⟩, ⟨some (.emoji "x"), 5⟩]) "x"
      = some 5 ∧
    sumReactionCounts [⟨some (.emoji "x"), 3⟩, ⟨some (.emoji "x"), 5⟩] "x"
      = 8 ∧
    lookupReaction
        (reactionsOf [⟨some (.emoji "x"), 3⟩, ⟨some (.emoji "x"), 5⟩]) "x"
      ≠ some
        (sumReactionCounts [⟨some (.emoji "x"), 3⟩, ⟨some (.emoji "x"), 5⟩]
          "x") := by
  decide

/-- C8 (amended): when each emoji appears in at most one entry — the
shape Telegram reports — the produced mapping agrees with the claimed
per-emoji sum (each emoji maps to the sum of its counts, i.e. its
single entry's count, and absent emojis are unmapped); in general the
last entry of an emoji wins.  Entries with a nil or non-emoji type are
skipped without affecting the map or failing extraction. -/
theorem claim_C8 :
    (∀ (entries : List ReactionEntry) (e : String),
      (emojiKeys entries).Nodup →
      lookupReaction (reactionsOf entries) e
        = if e ∈ emojiKeys entries then some (sumReactionCounts entries e)
          else none) ∧
    ∀ (r : ReactionEntry) (rest : List ReactionEntry),
      r.rtype = none ∨ (∃ cid, r.rtype = some (.custom cid)) →
      reactionsOf (r :: rest) = reactionsOf rest := by
  constructor
  · intro entries e hnd
    have h := reactionsOf_lookup entries [] e hnd (by intro k hk; rfl)
    rw [reactionsOf]
    rw [h]
    by_cases he : e ∈ emojiKeys entries <;> simp [he, lookupReaction]
  · intro r rest h
    rcases h with h | ⟨cid, h⟩ <;>
      · unfold reactionsOf
        rw [List.foldl_cons]
        simp only [h]

/-- C8 witness: three entries — emoji "x" count 3, emoji "y" count 5,
and a nil-typed entry — have pairwise distinct emojis; the amended
statement applied there, plus the skip clause applied to the nil-typed
entry. -/
theorem claim_C8_witness :
    ((emojiKeys [⟨some (.emoji "x"), 3⟩, ⟨some (.emoji "y"), 5⟩, ⟨none, 7⟩]).Nodup ∧
      lookupReaction
          (reactionsOf [⟨some (.emoji "x"), 3⟩, ⟨some (.emoji "y"), 5⟩, ⟨none, 7⟩])
          "x"
        = if "x" ∈ emojiKeys [⟨some (.emoji "x"), 3⟩, ⟨some (.emoji "y"), 5⟩, ⟨none, 7⟩]
          then some
            (sumReactionCounts
              [⟨some (.emoji "x"), 3⟩, ⟨some (.emoji "y"), 5⟩, ⟨none, 7⟩] "x")
          else none) ∧
    reactionsOf [(⟨none, 7⟩ : ReactionEntry)] = reactionsOf [] :=
  ⟨⟨by decide,
      claim_C8.1 [⟨some (.emoji "x"), 3⟩, ⟨some (.emoji "y"), 5⟩, ⟨none, 7⟩] "x"
        (by decide)⟩,
    claim_C8.2 ⟨none, 7⟩ [] (Or.inl rfl)⟩

/-- C6: a message whose publish date falls in a year before 2018 is
rejected at the very top of ParseMessage with the zero-value record
and a nil error, before any collaborator is invoked — the event trace
is empty, so in particular the record is never handed to the store. -/
theorem claim_C6 :
    ∀ (env : ExtractEnv) (crawlid : String) (message : Message)
      (mlr : MessageLink) (chat : Chat) (sgi : Option SupergroupFullInfo)
      (pc vc : Int) (ch : String),
      yearOfUnix message.date < 2018 →
      ParseMessage env crawlid message mlr chat sgi pc vc ch
          = (emptyPost, none, []) ∧
      MediaEvent.store ∉
        (ParseMessage env crawlid message mlr chat sgi pc vc ch).2.2 := by
  intro env crawlid message mlr chat sgi pc vc ch h
  have heq : ParseMessage env crawlid message mlr chat sgi pc vc ch
      = (emptyPost, none, []) := by
    unfold ParseMessage
    rw [if_pos h]
  refine ⟨heq, ?_⟩
  rw [heq]
  simp

/-- C6 witness: a text message dated 2015-01-01 (epoch 1420070400). -/
theorem claim_C6_witness :
    yearOfUnix 1420070400 < 2018 ∧
    ParseMessage c5Env "c" ⟨1420070400, 0, 7, .text "hello", none⟩ ⟨"x/1"⟩
        ⟨7, "T"⟩ (some ⟨1⟩) 0 0 "ch" = (emptyPost, none, []) :=
  ⟨by decide,
    (claim_C6 c5Env "c" ⟨1420070400, 0, 7, .text "hello", none⟩ ⟨"x/1"⟩
      ⟨7, "T"⟩ (some ⟨1⟩) 0 0 "ch" (by decide)).1⟩

/-- C7: the canonical record id is the last "/"-separated segment of
the permalink, suffixed with "-" and the channel name; the derivation
is a pure function of the permalink and channel, so extracting the
same message twice yields the identical id.  The first conjunct also
settles the unparseable-permalink proviso: strings.Split never returns
an empty list, so the guard returning the empty result is dead code
and extraction never fails on the permalink (the error is nil on every
such path). -/
theorem claim_C7 :
    (∀ link, messageNumberOf link = some ((splitOnSlash link).getLastD "")) ∧
    ∀ (env : ExtractEnv) (crawlid : String) (message : Message)
      (mlr : MessageLink) (chat : Chat) (sgi : SupergroupFullInfo)
      (pc vc : Int) (ch : String),
      yearOfUnix message.date ≥ 2018 →
      contentPanics message.content = false →
      (ParseMessage env crawlid message mlr chat (some sgi) pc vc ch).1.postUid
          = (splitOnSlash mlr.link).getLastD "" ++ "-" ++ ch ∧
      (ParseMessage env crawlid message mlr chat (some sgi) pc vc ch).2.1
          = none := by
  refine ⟨messageNumberOf_eq, ?_⟩
  intro env crawlid message mlr chat sgi pc vc ch hy hp
  obtain ⟨so, hso⟩ :=
    contentSwitch_some env message.content (errCommentsOf env message) hp
  unfold ParseMessage
  rw [if_neg (by omega : ¬ yearOfUnix message.date < 2018)]
  rw [messageNumberOf_eq]
  simp only [hso]
  exact ⟨trivial, trivial⟩

/-- C7 witness: a text message with permalink "https://t.me/chan/42"
and channel "chan" gets id "42-chan" and a nil error. -/
theorem claim_C7_witness :
    yearOfUnix 1600000000 ≥ 2018 ∧
    contentPanics (MsgContent.text "hello") = false ∧
    (ParseMessage c4Env "c" ⟨1600000000, 0, 7, .text "hello", none⟩
        ⟨"https://t.me/chan/42"⟩ ⟨7, "T"⟩ (some ⟨1⟩) 0 0 "chan").1.postUid
      = (splitOnSlash "https://t.me/chan/42").getLastD "" ++ "-" ++ "chan" ∧
    (ParseMessage c4Env "c" ⟨1600000000, 0, 7, .text "hello", none⟩
        ⟨"https://t.me/chan/42"⟩ ⟨7, "T"⟩ (some ⟨1⟩) 0 0 "chan").2.1 = none :=
  ⟨by decide, by decide,
    (claim_C7.2 c4Env "c" ⟨1600000000, 0, 7, .text "hello", none⟩
      ⟨"https://t.me/chan/42"⟩ ⟨7, "T"⟩ ⟨1⟩ 0 0 "chan" (by decide) (by decide)).1,
    (claim_C7.2 c4Env "c" ⟨1600000000, 0, 7, .text "hello", none⟩
      ⟨"https://t.me/chan/42"⟩ ⟨7, "T"⟩ ⟨1⟩ 0 0 "chan" (by decide) (by decide)).2⟩

/-- C9 (amended): the error component of ParseMessage is characterised
by expectedErr — nil on every non-panic path, whatever the comment,
upload and storage sub-results were (those failures are swallowed);
"failed to parse message" only when a panic reaches the recover at the
function boundary; and the last swallowed sub-error (possibly nil)
when a panic is absorbed by the earlier-registered comment or reaction
recover instead. -/
theorem claim_C9 :
    ∀ (env : ExtractEnv) (crawlid : String) (message : Message)
      (mlr : MessageLink) (chat : Chat) (sgi : Option SupergroupFullInfo)
      (pc vc : Int) (ch : String),
      (ParseMessage env crawlid message mlr chat sgi pc vc ch).2.1
        = expectedErr env message sgi := by
  intro env crawlid message mlr chat sgi pc vc ch
  unfold ParseMessage expectedErr
  by_cases hy : yearOfUnix message.date < 2018
  · rw [if_pos hy, if_pos hy]
  · rw [if_neg hy, if_neg hy, messageNumberOf_eq]
    by_cases hp : contentPanics message.content
    · rw [contentSwitch_none env _ _ hp, if_pos hp]
      cases hcd : commentsDeferOf message <;> simp [hcd]
    · obtain ⟨so, hso⟩ := contentSwitch_some env message.content
        (errCommentsOf env message) (by simpa using hp)
      have hes : errSwitchOf env message = so.errVar := by
        unfold errSwitchOf
        rw [hso]
      rw [if_neg hp]
      simp only [hso]
      cases sgi with
      | none =>
        simp only [Option.isNone_none, if_pos rfl]
        cases hb : commentsDeferOf message || reactionsDeferOf message <;>
          simp [hb, hes]
      | some sgiv => simp


/-- C9 witness: the characterisation applied at a concrete non-panic
input — a text message with full context — gives a nil error even
though the storage oracle reports an error. -/
theorem claim_C9_witness :
    (ParseMessage ⟨fun id => "p-" ++ id, fun _ => none, ([], none), 1, 1,
        some "store failed"⟩ "c" ⟨1600000000, 0, 7, .text "hello", none⟩
        ⟨"x/9"⟩ ⟨7, "T"⟩ (some ⟨1⟩) 0 0 "ch").2.1
      = expectedErr ⟨fun id => "p-" ++ id, fun _ => none, ([], none), 1, 1,
        some "store failed"⟩ ⟨1600000000, 0, 7, .text "hello", none⟩
        (some ⟨1⟩) :=
  claim_C9 ⟨fun id => "p-" ++ id, fun _ => none, ([], none), 1, 1,
    some "store failed"⟩ "c" ⟨1600000000, 0, 7, .text "hello", none⟩
    ⟨"x/9"⟩ ⟨7, "T"⟩ (some ⟨1⟩) 0 0 "ch"

/-- C10 witness: a concrete environment whose lookup and download
succeed with the non-empty path "/tmp/x". -/
theorem claim_C10_witness :
    (TdEnv.mk (fun _ => .ok ⟨5⟩) (fun _ => .ok ⟨"/tmp/x"⟩)).getRemoteFile "id1"
        = .ok ⟨5⟩ ∧
    (TdEnv.mk (fun _ => .ok ⟨5⟩) (fun _ => .ok ⟨"/tmp/x"⟩)).downloadFile 5
        = .ok ⟨"/tmp/x"⟩ ∧
    fetchfilefromtelegram
        (TdEnv.mk (fun _ => .ok ⟨5⟩) (fun _ => .ok ⟨"/tmp/x"⟩)) "id1" = "/tmp/x" :=
  ⟨rfl, rfl,
    (claim_C10 (TdEnv.mk (fun _ => .ok ⟨5⟩) (fun _ => .ok ⟨"/tmp/x"⟩))
      "id1").2.2.2 ⟨5⟩ ⟨"/tmp/x"⟩ rfl rfl (by decide)⟩

end TgScraper
